import Mathlib

/-!
# Radix-prefix scanner of `lab1/lab1.c`

A shallow embedding of the table-driven scanner: the character classifier, the
transition table, the prefix disambiguator, the input cursor
(`set_input` / `nextchar` / `putback_char`) and the scanning loop `gettoken`.

Conventions of the embedding:
* a C `int` is a Lean `Int` (all values stay far below any overflow);
* a C `char` is a Lean `Char`; the terminator `'\0'` is `NUL` and the byte
  values are `Char.ofNat n` with `n < 256`. The source compares characters
  only with ASCII literals, so a byte above 127 fails every test of
  `classify_char` whether `char` is signed or not, as its `Char` does here;
* the three globals `input_buffer`, `buffer_pos`, `buffer_len` form the
  explicit state `Cursor`, threaded through every operation;
* a C string argument is the list of characters stored before its
  terminator, so reading `str[i]` at the end of the list reads the terminator;
* the `while` loop of `gettoken` is a recursion on an iteration budget: one
  unit of fuel is one pass through the loop body;
* `gettoken_loop_traced` is the same loop returning, next to its outcome, the
  calls of `nextchar` and `putback_char` and the table lookups it makes;
* `scan_text` is a closed form of one `gettoken` call on the characters still
  to be read, used in proofs only and proved equal to `gettoken`.
-/

namespace Lab1

/-! ## Constants -/

/-- Token constant `BIN`. -/
def BIN : Int := 1
/-- Token constant `OCT`. -/
def OCT : Int := 2
/-- Token constant `DEC`. -/
def DEC : Int := 3
/-- Token constant `HEX`. -/
def HEX : Int := 4
/-- Token constant `ERROR`, also the error entry of the transition table. -/
def ERROR : Int := -1

/-- Number of rows of the transition table. -/
def NUM_STATES : Nat := 10
/-- The start state. -/
def START_STATE : Int := 0
/-- Number of columns of the transition table. -/
def NUM_COLS : Nat := 7

/-- Final state of a binary literal. -/
def STATE_BIN : Int := 6
/-- Final state of an octal literal. -/
def STATE_OCT : Int := 7
/-- Final state of a decimal literal. -/
def STATE_DEC : Int := 8
/-- Final state of a hexadecimal literal. -/
def STATE_HEX : Int := 9

/-- Character class of `'0'`. -/
def COL_0 : Int := 0
/-- Character class of `'1'`. -/
def COL_1 : Int := 1
/-- Character class of `'2'..'7'`. -/
def COL_2_7 : Int := 2
/-- Character class of `'8'` and `'9'`. -/
def COL_8_9 : Int := 3
/-- Character class of the prefix letters `b`, `o`, `d`, `h`. -/
def COL_PREFIX : Int := 4
/-- Character class of the remaining hexadecimal letters. -/
def COL_HEX_LETTER : Int := 5
/-- Character class of every other character. -/
def COL_OTHER : Int := 6

/-- The string terminator `'\0'`. -/
def NUL : Char := Char.ofNat 0

/-! ## Transition table -/

/-- The array `next_state[NUM_STATES][NUM_COLS]`, row by row. -/
def next_state : List (List Int) :=
  [ -- state 0: start
    [1, STATE_DEC, STATE_DEC, STATE_DEC, ERROR, ERROR, ERROR],
    -- state 1: after '0'
    [STATE_DEC, STATE_DEC, STATE_DEC, STATE_DEC, 2, ERROR, STATE_DEC],
    -- state 2: after '0h'
    [STATE_HEX, STATE_HEX, STATE_HEX, STATE_HEX, ERROR, STATE_HEX, STATE_HEX],
    -- state 3: after '0b'
    [STATE_BIN, STATE_BIN, ERROR, ERROR, ERROR, ERROR, STATE_BIN],
    -- state 4: after '0o'
    [STATE_OCT, STATE_OCT, STATE_OCT, ERROR, ERROR, ERROR, STATE_OCT],
    -- state 5: after '0d'
    [STATE_DEC, STATE_DEC, STATE_DEC, STATE_DEC, ERROR, ERROR, STATE_DEC],
    -- state 6: BIN final
    [STATE_BIN, STATE_BIN, ERROR, ERROR, ERROR, ERROR, STATE_BIN],
    -- state 7: OCT final
    [STATE_OCT, STATE_OCT, STATE_OCT, ERROR, ERROR, ERROR, STATE_OCT],
    -- state 8: DEC final
    [STATE_DEC, STATE_DEC, STATE_DEC, STATE_DEC, ERROR, ERROR, STATE_DEC],
    -- state 9: HEX final
    [STATE_HEX, STATE_HEX, STATE_HEX, STATE_HEX, ERROR, STATE_HEX, STATE_HEX] ]

/-- The array access `next_state[state][char_class]`: `none` when an index
lies outside the array (undefined behaviour in C). -/
def next_state_at (state char_class : Int) : Option Int :=
  if 0 ≤ state ∧ state < NUM_STATES ∧ 0 ≤ char_class ∧ char_class < NUM_COLS then
    (next_state.getD state.toNat []).get? char_class.toNat
  else
    none

/-! ## Pure helpers -/

/-- Function `classify_char`: the column of the transition table for `c`. -/
def classify_char (c : Char) : Int :=
  if c = '0' then COL_0
  else if c = '1' then COL_1
  else if c ≥ '2' ∧ c ≤ '7' then COL_2_7
  else if c = '8' ∨ c = '9' then COL_8_9
  else if c = 'b' ∨ c = 'o' ∨ c = 'd' ∨ c = 'h' then COL_PREFIX
  else if (c ≥ 'A' ∧ c ≤ 'F') ∨ (c ≥ 'a' ∧ c ≤ 'f') then COL_HEX_LETTER
  else COL_OTHER

/-- Function `get_prefix_state`: the state entered by a prefix letter read
after a leading `'0'`. -/
def get_prefix_state (current_state : Int) (c : Char) : Int :=
  if current_state = 1 then
    if c = 'b' then 3
    else if c = 'o' then 4
    else if c = 'd' then 5
    else if c = 'h' then 2
    else ERROR
  else ERROR

/-- Function `is_final_state`. -/
def is_final_state (state : Int) : Bool :=
  decide (state ≥ STATE_BIN) && decide (state ≤ STATE_HEX)

/-- Function `get_token_type`: the token kind of a final state. -/
def get_token_type (state : Int) : Int :=
  if state = STATE_BIN then BIN
  else if state = STATE_OCT then OCT
  else if state = STATE_DEC then DEC
  else if state = STATE_HEX then HEX
  else ERROR

/-! ## Input cursor -/

/-- The globals `input_buffer[100]`, `buffer_pos` and `buffer_len`. -/
structure Cursor where
  /-- Contents of the array `input_buffer`. -/
  input_buffer : List Char
  /-- Read offset. -/
  buffer_pos : Int
  /-- Number of characters stored. -/
  buffer_len : Int
  /-- The array has exactly 100 cells. -/
  size_eq : input_buffer.length = 100

/-- The globals at program start: a zeroed array and both counters `0`. -/
def Cursor.initial : Cursor :=
  { input_buffer := List.replicate 100 NUL
    buffer_pos := 0
    buffer_len := 0
    size_eq := List.length_replicate 100 NUL }

/-- The copy loop of `set_input`, entered with index `i` and `str` the part of
the argument from index `i` on; returns the array and the final index. -/
def set_input_loop : List Char → Nat → List Char → List Char × Nat
  | [], i, buf => (buf, i)
  | c :: rest, i, buf =>
    if c ≠ NUL ∧ i < 99 then set_input_loop rest (i + 1) (buf.set i c)
    else (buf, i)

theorem set_input_loop_length (str : List Char) (i : Nat) (buf : List Char) :
    (set_input_loop str i buf).1.length = buf.length := by
  induction str generalizing i buf with
  | nil => rfl
  | cons c rest ih =>
    unfold set_input_loop
    split
    · rw [ih]; exact List.length_set ..
    · rfl

/-- Function `set_input`. -/
def set_input (str : List Char) (s : Cursor) : Cursor :=
  { input_buffer := ((set_input_loop str 0 s.input_buffer).1).set
      (set_input_loop str 0 s.input_buffer).2 NUL
    buffer_pos := 0
    buffer_len := (set_input_loop str 0 s.input_buffer).2
    size_eq := by rw [List.length_set, set_input_loop_length]; exact s.size_eq }

/-- Function `nextchar`: the character read and the cursor afterwards. -/
def nextchar (s : Cursor) : Char × Cursor :=
  if s.buffer_pos < s.buffer_len then
    (s.input_buffer.getD s.buffer_pos.toNat NUL, { s with buffer_pos := s.buffer_pos + 1 })
  else
    (NUL, s)

/-- Function `putback_char`; the argument `c` is ignored, as in the source. -/
def putback_char (_c : Char) (s : Cursor) : Cursor :=
  if s.buffer_pos > 0 then { s with buffer_pos := s.buffer_pos - 1 } else s

/-! ## Scanner -/

/-- Outcome of running `gettoken`. -/
inductive Run where
  /-- The call returned `token`, leaving the cursor `cur`. -/
  | done (token : Int) (cur : Cursor)
  /-- The iteration budget ran out before the loop ended. -/
  | out_of_fuel
  /-- The transition table was indexed outside its bounds. -/
  | out_of_bounds

/-- The token returned, when the call returned. -/
def Run.token : Run → Option Int
  | .done t _ => some t
  | _ => none

/-- The read offset on return, when the call returned. -/
def Run.pos : Run → Option Int
  | .done _ s => some s.buffer_pos
  | _ => none

/-- The cursor on return, when the call returned. -/
def Run.cursor : Run → Option Cursor
  | .done _ s => some s
  | _ => none

/-- The `switch` taken when `nextchar` returned `'\0'`. -/
def eof_token (state : Int) : Int :=
  if state = 2 then HEX
  else if state = 3 then BIN
  else if state = 4 then OCT
  else if state = 5 then DEC
  else if state = 1 then DEC
  else ERROR

/-- The `switch` taken when the table entry is `ERROR`: states 2..5 put the
character back and return their radix, every other state returns `ERROR`
without a putback. -/
def error_exit (state : Int) (c : Char) (s : Cursor) : Run :=
  if state = 2 then .done HEX (putback_char c s)
  else if state = 3 then .done BIN (putback_char c s)
  else if state = 4 then .done OCT (putback_char c s)
  else if state = 5 then .done DEC (putback_char c s)
  else .done ERROR s

/-- The `while (!is_final_state(state))` loop of `gettoken` together with the
two statements after it. `c` is the local variable `c`; `fuel` bounds the
number of passes through the loop body. -/
def gettoken_loop (fuel : Nat) (state : Int) (c : Char) (s : Cursor) : Run :=
  if is_final_state state then
    -- put back the character that caused final state transition
    .done (get_token_type state) (putback_char c s)
  else
    match fuel with
    | 0 => .out_of_fuel
    | fuel + 1 =>
      let c := (nextchar s).1
      let s := (nextchar s).2
      if c = NUL then .done (eof_token state) s
      else
        let char_class := classify_char c
        if state = 1 ∧ char_class = COL_PREFIX then
          let state := get_prefix_state state c
          if state = ERROR then .done ERROR s
          else gettoken_loop fuel state c s
        else
          match next_state_at state char_class with
          | none => .out_of_bounds
          | some next =>
            if next = ERROR then error_exit state c s
            else gettoken_loop fuel next c s

/-- Function `gettoken`, run with an iteration budget of `fuel`. The local `c`
is uninitialised on entry; it is never used before being assigned. -/
def gettoken (fuel : Nat) (s : Cursor) : Run :=
  gettoken_loop fuel START_STATE NUL s

/-- The cursor `s` with its read offset moved to `p` (a helper of the proofs:
the source only ever moves the offset by one). -/
def Cursor.seek (s : Cursor) (p : Int) : Cursor :=
  { s with buffer_pos := p }

/-- Reference classification of spec section 4.1, read in priority order:
the hexadecimal letters are `A`..`F` and `a`..`f` without the prefix letters
`b` and `d`, which the earlier rule has already taken. -/
def classify_reference (c : Char) : Int :=
  if c = '0' then 0
  else if c = '1' then 1
  else if c ∈ ['2', '3', '4', '5', '6', '7'] then 2
  else if c ∈ ['8', '9'] then 3
  else if c ∈ ['b', 'o', 'd', 'h'] then 4
  else if c ∈ ['A', 'B', 'C', 'D', 'E', 'F', 'a', 'c', 'e', 'f'] then 5
  else 6

/-- Reference transition mapping of spec section 4.3, by state and class
number (states: Start 0, AfterLeadingZero 1, AfterZeroH 2, AfterZeroB 3,
AfterZeroO 4, AfterZeroD 5, FinalBinary 6, FinalOctal 7, FinalDecimal 8,
FinalHexadecimal 9; classes: Zero 0, One 1, TwoToSeven 2, EightOrNine 3,
PrefixLetter 4, HexLetter 5, Other 6). It is `none` at (AfterLeadingZero,
PrefixLetter), the pair that the section hands to the prefix disambiguator
instead of the table, and outside the ten states. -/
def reference_transition (state cls : Nat) : Option Int :=
  match state with
  | 0 =>
    if cls = 0 then some 1
    else if cls = 1 ∨ cls = 2 ∨ cls = 3 then some STATE_DEC
    else some ERROR
  | 1 => if cls ≤ 3 ∨ cls = 6 then some STATE_DEC else if cls = 5 then some ERROR else none
  | 2 => if cls ≤ 3 ∨ cls = 5 ∨ cls = 6 then some STATE_HEX else some ERROR
  | 9 => if cls ≤ 3 ∨ cls = 5 ∨ cls = 6 then some STATE_HEX else some ERROR
  | 3 => if cls = 0 ∨ cls = 1 ∨ cls = 6 then some STATE_BIN else some ERROR
  | 6 => if cls = 0 ∨ cls = 1 ∨ cls = 6 then some STATE_BIN else some ERROR
  | 4 => if cls = 0 ∨ cls = 1 ∨ cls = 2 ∨ cls = 6 then some STATE_OCT else some ERROR
  | 7 => if cls = 0 ∨ cls = 1 ∨ cls = 2 ∨ cls = 6 then some STATE_OCT else some ERROR
  | 5 => if cls ≤ 3 ∨ cls = 6 then some STATE_DEC else some ERROR
  | 8 => if cls ≤ 3 ∨ cls = 6 then some STATE_DEC else some ERROR
  | _ => none

/-- The characters still to be read: the stored characters (the first
`buffer_len` cells of the array) from the read offset on. A helper of the
proofs. -/
def remaining (s : Cursor) : List Char :=
  (s.input_buffer.take s.buffer_len.toNat).drop s.buffer_pos.toNat

/-- Closed form of one `gettoken` call on the characters still to be read: the
token returned and the number of characters by which the read offset moves.
A helper of the proofs, tied to `gettoken` by `gettoken_eq_scan_text`. -/
def scan_text : List Char → Int × Int
  | [] => (ERROR, 0)
  | a :: rest =>
    if a = NUL then (ERROR, 1)
    else if classify_char a = 0 then
      match rest with
      | [] => (DEC, 1)
      | b :: rest2 =>
        if b = NUL then (DEC, 2)
        else if classify_char b = 4 then
          match rest2 with
          | [] => (eof_token (get_prefix_state 1 b), 2)
          | c :: _ =>
            if c = NUL then (eof_token (get_prefix_state 1 b), 3)
            else (eof_token (get_prefix_state 1 b), 2)
        else if classify_char b = 5 then (ERROR, 2)
        else (DEC, 1)
    else if classify_char a = 1 ∨ classify_char a = 2 ∨ classify_char a = 3 then (DEC, 0)
    else (ERROR, 1)

/-- What one `gettoken` call does to its surroundings, in order: a call of
`nextchar`, a call of `putback_char`, an evaluation of
`next_state[state][char_class]`. -/
inductive Event where
  /-- A call of `nextchar`. -/
  | read
  /-- A call of `putback_char`. -/
  | putback
  /-- An evaluation of `next_state[state][char_class]`. -/
  | lookup (state char_class : Int)
  deriving DecidableEq

/-- The calls of `putback_char` made by the `switch` taken on an `ERROR` table
entry (see `error_exit`). -/
def error_exit_events (state : Int) : List Event :=
  if state = 2 then [.putback]
  else if state = 3 then [.putback]
  else if state = 4 then [.putback]
  else if state = 5 then [.putback]
  else []

/-- The loop of `gettoken` once more, now returning next to the outcome of
`gettoken_loop` the events of the run in order. -/
def gettoken_loop_traced (fuel : Nat) (state : Int) (c : Char) (s : Cursor) :
    Run × List Event :=
  if is_final_state state then
    (.done (get_token_type state) (putback_char c s), [.putback])
  else
    match fuel with
    | 0 => (.out_of_fuel, [])
    | fuel + 1 =>
      let c := (nextchar s).1
      let s := (nextchar s).2
      if c = NUL then (.done (eof_token state) s, [.read])
      else
        let char_class := classify_char c
        if state = 1 ∧ char_class = COL_PREFIX then
          let state := get_prefix_state state c
          if state = ERROR then (.done ERROR s, [.read])
          else
            ((gettoken_loop_traced fuel state c s).1,
              .read :: (gettoken_loop_traced fuel state c s).2)
        else
          match next_state_at state char_class with
          | none => (.out_of_bounds, [.read, .lookup state char_class])
          | some next =>
            if next = ERROR then
              (error_exit state c s,
                .read :: .lookup state char_class :: error_exit_events state)
            else
              ((gettoken_loop_traced fuel next c s).1,
                .read :: .lookup state char_class :: (gettoken_loop_traced fuel next c s).2)

/-- The events of one `gettoken` call. -/
def gettoken_traced (fuel : Nat) (s : Cursor) : Run × List Event :=
  gettoken_loop_traced fuel START_STATE NUL s

/-- Number of loop passes still possible from a state: a helper of the proofs. -/
def passes_left (state : Int) : Nat :=
  if state = 0 then 3
  else if state = 1 then 2
  else if state = 2 ∨ state = 3 ∨ state = 4 ∨ state = 5 then 1
  else 0

/-- The characters returned by `k` successive calls of `nextchar`, in order. -/
def read_chars : Nat → Cursor → List Char
  | 0, _ => []
  | k + 1, s => (nextchar s).1 :: read_chars k (nextchar s).2

/-! ## Characters -/

theorem char_le_iff (a b : Char) : a ≤ b ↔ a.toNat ≤ b.toNat := Iff.rfl

theorem char_eq_iff (a b : Char) : a = b ↔ a.toNat = b.toNat := by
  constructor
  · intro h; rw [h]
  · intro h
    rw [← Char.ofNat_toNat a, ← Char.ofNat_toNat b, h]

theorem classify_char_high (c : Char) (h : 128 ≤ c.toNat) :
    classify_char c = COL_OTHER ∧ classify_reference c = 6 := by
  constructor
  · simp only [classify_char, char_le_iff, ge_iff_le, char_eq_iff, Char.reduceToNat]
    repeat (first | rfl | (rw [if_neg (by omega)]))
  · simp only [classify_reference, List.mem_cons, List.mem_singleton, List.mem_nil_iff,
      or_false, char_eq_iff, Char.reduceToNat]
    repeat (first | rfl | (rw [if_neg (by omega)]))

theorem classify_char_low (n : Nat) (h : n < 128) :
    classify_char (Char.ofNat n) = classify_reference (Char.ofNat n) := by
  interval_cases n <;> rfl

theorem classify_char_eq_reference (c : Char) : classify_char c = classify_reference c := by
  by_cases h : c.toNat < 128
  · have := classify_char_low c.toNat h
    rwa [Char.ofNat_toNat] at this
  · have := classify_char_high c (by omega)
    rw [this.1, this.2]; rfl

theorem classify_reference_cases (c : Char) :
    classify_reference c = 0 ∨ classify_reference c = 1 ∨ classify_reference c = 2 ∨
    classify_reference c = 3 ∨ classify_reference c = 4 ∨ classify_reference c = 5 ∨
    classify_reference c = 6 := by
  unfold classify_reference
  split_ifs <;> simp

theorem classify_char_cases (c : Char) :
    classify_char c = 0 ∨ classify_char c = 1 ∨ classify_char c = 2 ∨
    classify_char c = 3 ∨ classify_char c = 4 ∨ classify_char c = 5 ∨
    classify_char c = 6 := by
  rw [classify_char_eq_reference]; exact classify_reference_cases c

theorem classify_char_sets_low (n : Nat) (h : n < 128) :
    (classify_char (Char.ofNat n) ≤ 3 ↔
      Char.ofNat n ∈ ['0', '1', '2', '3', '4', '5', '6', '7', '8', '9']) ∧
    (classify_char (Char.ofNat n) = 4 ↔ Char.ofNat n ∈ ['b', 'o', 'd', 'h']) ∧
    (classify_char (Char.ofNat n) = 5 ↔
      Char.ofNat n ∈ ['A', 'B', 'C', 'D', 'E', 'F', 'a', 'c', 'e', 'f']) := by
  interval_cases n <;> decide

/-- The characters of the digit classes, of the prefix class and of the
hexadecimal-letter class. -/
theorem classify_char_sets (c : Char) :
    (classify_char c ≤ 3 ↔ c ∈ ['0', '1', '2', '3', '4', '5', '6', '7', '8', '9']) ∧
    (classify_char c = 4 ↔ c ∈ ['b', 'o', 'd', 'h']) ∧
    (classify_char c = 5 ↔ c ∈ ['A', 'B', 'C', 'D', 'E', 'F', 'a', 'c', 'e', 'f']) := by
  by_cases h : c.toNat < 128
  · have := classify_char_sets_low c.toNat h
    rwa [Char.ofNat_toNat] at this
  · have h6 : classify_char c = 6 := (classify_char_high c (by omega)).1
    rw [h6]
    simp only [List.mem_cons, List.mem_singleton, List.mem_nil_iff, or_false, char_eq_iff,
      Char.reduceToNat]
    refine ⟨⟨fun h3 => ?_, fun hm => ?_⟩, ⟨fun h3 => ?_, fun hm => ?_⟩,
      ⟨fun h3 => ?_, fun hm => ?_⟩⟩ <;> omega

/-! ## Facts about `set_input` -/

theorem set_input_loop_snd_ge (str : List Char) (i : Nat) (buf : List Char) :
    i ≤ (set_input_loop str i buf).2 := by
  induction str generalizing i buf with
  | nil => exact Nat.le_refl i
  | cons c rest ih =>
    unfold set_input_loop
    split
    · exact Nat.le_trans (Nat.le_succ i) (ih (i + 1) (buf.set i c))
    · exact Nat.le_refl i

theorem set_input_loop_get_lt (str : List Char) (i : Nat) (buf : List Char) (j : Nat)
    (h : j < i) : (set_input_loop str i buf).1[j]? = buf[j]? := by
  induction str generalizing i buf with
  | nil => rfl
  | cons c rest ih =>
    unfold set_input_loop
    split
    · rw [ih (i + 1) (buf.set i c) (by omega), List.getElem?_set_ne (by omega)]
    · rfl

theorem set_input_loop_cons (c : Char) (rest : List Char) (i : Nat) (buf : List Char)
    (hc : c ≠ NUL) (hi : i < 99) :
    set_input_loop (c :: rest) i buf = set_input_loop rest (i + 1) (buf.set i c) := by
  rw [set_input_loop, if_pos ⟨hc, hi⟩]

theorem set_input_loop_copied (pre rest : List Char) (i : Nat) (buf : List Char)
    (hnul : ∀ c ∈ pre, c ≠ NUL) (hi : i + pre.length ≤ 99) (hbuf : i + pre.length ≤ buf.length) :
    i + pre.length ≤ (set_input_loop (pre ++ rest) i buf).2 ∧
    ∀ j, j < pre.length → (set_input_loop (pre ++ rest) i buf).1[i + j]? = pre[j]? := by
  induction pre generalizing i buf with
  | nil =>
    refine ⟨set_input_loop_snd_ge _ _ _, ?_⟩
    intro j hj
    exact absurd hj (Nat.not_lt_zero j)
  | cons c pre ih =>
    have hc : c ≠ NUL := hnul c (List.mem_cons_self c pre)
    have hlen : (c :: pre).length = pre.length + 1 := rfl
    rw [hlen] at hi hbuf
    rw [List.cons_append, set_input_loop_cons c _ i buf hc (by omega)]
    have ih2 := ih (i + 1) (buf.set i c) (fun d hd => hnul d (List.mem_cons_of_mem c hd))
      (by omega) (by rw [List.length_set]; omega)
    refine ⟨by rw [hlen]; omega, ?_⟩
    intro j hj
    cases j with
    | zero =>
      simp only [Nat.add_zero, List.getElem?_cons_zero]
      rw [set_input_loop_get_lt _ (i + 1) _ i (Nat.lt_succ_self i),
        List.getElem?_set_self (by omega)]
    | succ j =>
      have := ih2.2 j (by rw [hlen] at hj; omega)
      rw [show i + (j + 1) = i + 1 + j by omega, this, List.getElem?_cons_succ]

theorem set_input_loop_stop (pre rest : List Char) (i : Nat) (buf : List Char)
    (hnul : ∀ c ∈ pre, c ≠ NUL) (hi : i + pre.length ≤ 99)
    (hstop : rest = [] ∨ rest.head? = some NUL) :
    (set_input_loop (pre ++ rest) i buf).2 = i + pre.length := by
  induction pre generalizing i buf with
  | nil =>
    rcases hstop with h | h
    · subst h; rfl
    · cases rest with
      | nil => rfl
      | cons d r =>
        simp only [List.head?_cons, Option.some.injEq] at h
        subst h
        simp [set_input_loop]
  | cons c pre ih =>
    have hc : c ≠ NUL := hnul c (List.mem_cons_self c pre)
    have hlen : (c :: pre).length = pre.length + 1 := rfl
    rw [hlen] at hi
    rw [List.cons_append, set_input_loop_cons c _ i buf hc (by omega),
      ih (i + 1) (buf.set i c) (fun d hd => hnul d (List.mem_cons_of_mem c hd)) (by omega), hlen]
    omega

theorem set_input_pos (str : List Char) (s : Cursor) : (set_input str s).buffer_pos = 0 := rfl

theorem set_input_copied (pre rest : List Char) (s : Cursor)
    (hnul : ∀ c ∈ pre, c ≠ NUL) (h99 : pre.length ≤ 99) :
    (pre.length : Int) ≤ (set_input (pre ++ rest) s).buffer_len ∧
    ∀ j, j < pre.length → (set_input (pre ++ rest) s).input_buffer[j]? = pre[j]? := by
  have h := set_input_loop_copied pre rest 0 s.input_buffer hnul (by omega)
    (by rw [s.size_eq]; omega)
  rw [Nat.zero_add] at h
  refine ⟨by simp only [set_input]; exact_mod_cast h.1, ?_⟩
  intro j hj
  have := h.2 j hj
  rw [Nat.zero_add] at this
  simp only [set_input]
  rw [List.getElem?_set_ne (by omega), this]

theorem set_input_len_stop (pre rest : List Char) (s : Cursor)
    (hnul : ∀ c ∈ pre, c ≠ NUL) (h99 : pre.length ≤ 99)
    (hstop : rest = [] ∨ rest.head? = some NUL) :
    (set_input (pre ++ rest) s).buffer_len = pre.length := by
  have h := set_input_loop_stop pre rest 0 s.input_buffer hnul (by omega) hstop
  simp only [set_input, h, Nat.zero_add]

/-! ## Facts about the cursor -/

@[simp] theorem seek_pos (s : Cursor) (p : Int) : (s.seek p).buffer_pos = p := rfl

@[simp] theorem seek_len (s : Cursor) (p : Int) : (s.seek p).buffer_len = s.buffer_len := rfl

@[simp] theorem seek_buf (s : Cursor) (p : Int) : (s.seek p).input_buffer = s.input_buffer := rfl

@[simp] theorem seek_seek (s : Cursor) (p q : Int) : (s.seek p).seek q = s.seek q := rfl

theorem seek_self (s : Cursor) : s.seek s.buffer_pos = s := rfl

theorem nextchar_seek_read (s : Cursor) (p : Int) (k : Nat) (c : Char) (hk : p.toNat = k)
    (hlt : p < s.buffer_len) (hc : s.input_buffer[k]? = some c) :
    nextchar (s.seek p) = (c, s.seek (p + 1)) := by
  simp only [nextchar, seek_pos, seek_len, if_pos hlt, hk, seek_buf,
    List.getD_eq_getElem?_getD, hc, Option.getD_some]
  rfl

theorem nextchar_seek_eof (s : Cursor) (p : Int) (h : s.buffer_len ≤ p) :
    nextchar (s.seek p) = (NUL, s.seek p) := by
  simp only [nextchar, seek_pos, seek_len, if_neg (not_lt.mpr h)]

theorem putback_seek_succ (s : Cursor) (p : Int) (c : Char) (h : 0 ≤ p) :
    putback_char c (s.seek (p + 1)) = s.seek p := by
  have h1 : p + 1 > 0 := by omega
  simp only [putback_char, seek_pos, if_pos h1, Cursor.seek, Int.add_sub_cancel]

/-! ## Facts about the scanning loop -/

theorem gettoken_loop_final (fuel : Nat) (state : Int) (c : Char) (s : Cursor)
    (h : is_final_state state = true) :
    gettoken_loop fuel state c s = .done (get_token_type state) (putback_char c s) := by
  rw [gettoken_loop.eq_def, if_pos h]

theorem gettoken_loop_succ (fuel : Nat) (state : Int) (c0 : Char) (s : Cursor)
    (h : is_final_state state = false) :
    gettoken_loop (fuel + 1) state c0 s =
      if (nextchar s).1 = NUL then .done (eof_token state) (nextchar s).2
      else if state = 1 ∧ classify_char (nextchar s).1 = COL_PREFIX then
        if get_prefix_state state (nextchar s).1 = ERROR then .done ERROR (nextchar s).2
        else gettoken_loop fuel (get_prefix_state state (nextchar s).1) (nextchar s).1
          (nextchar s).2
      else
        match next_state_at state (classify_char (nextchar s).1) with
        | none => .out_of_bounds
        | some next =>
          if next = ERROR then error_exit state (nextchar s).1 (nextchar s).2
          else gettoken_loop fuel next (nextchar s).1 (nextchar s).2 := by
  conv_lhs => rw [gettoken_loop.eq_def]
  simp only [h, Bool.false_eq_true, if_false]

theorem gettoken_loop_eof (fuel : Nat) (state : Int) (c0 : Char) (s s' : Cursor)
    (h : is_final_state state = false) (hn : nextchar s = (NUL, s')) :
    gettoken_loop (fuel + 1) state c0 s = .done (eof_token state) s' := by
  rw [gettoken_loop_succ fuel state c0 s h, hn]
  simp only [if_true]

theorem gettoken_loop_start (fuel : Nat) (c0 c : Char) (s s' : Cursor)
    (hn : nextchar s = (c, s')) (hc : c ≠ NUL) :
    gettoken_loop (fuel + 1) 0 c0 s =
      if classify_char c = 0 then gettoken_loop fuel 1 c s'
      else if classify_char c = 1 ∨ classify_char c = 2 ∨ classify_char c = 3 then
        .done DEC (putback_char c s')
      else .done ERROR s' := by
  rw [gettoken_loop_succ fuel 0 c0 s (by decide), hn]
  simp only [if_neg hc]
  rcases classify_char_cases c with h | h | h | h | h | h | h <;> rw [h]
  all_goals first
    | rfl
    | simp +decide [next_state_at, next_state, gettoken_loop_final, error_exit]

theorem gettoken_loop_zero (fuel : Nat) (c0 c : Char) (s s' : Cursor)
    (hn : nextchar s = (c, s')) (hc : c ≠ NUL) :
    gettoken_loop (fuel + 1) 1 c0 s =
      if classify_char c = 4 then
        if get_prefix_state 1 c = ERROR then .done ERROR s'
        else gettoken_loop fuel (get_prefix_state 1 c) c s'
      else if classify_char c = 5 then .done ERROR s'
      else .done DEC (putback_char c s') := by
  rw [gettoken_loop_succ fuel 1 c0 s (by decide), hn]
  simp only [if_neg hc]
  rcases classify_char_cases c with h | h | h | h | h | h | h <;> rw [h]
  all_goals first
    | rfl
    | simp +decide [next_state_at, next_state, gettoken_loop_final, error_exit]

theorem gettoken_loop_radix (fuel : Nat) (st : Int) (c0 c : Char) (s s' : Cursor)
    (hst : st = 2 ∨ st = 3 ∨ st = 4 ∨ st = 5)
    (hn : nextchar s = (c, s')) (hc : c ≠ NUL) :
    gettoken_loop (fuel + 1) st c0 s = .done (eof_token st) (putback_char c s') := by
  have hnf : is_final_state st = false := by
    rcases hst with h | h | h | h <;> subst h <;> decide
  rw [gettoken_loop_succ fuel st c0 s hnf, hn]
  simp only [if_neg hc]
  rcases hst with h | h | h | h <;> subst h <;>
    rcases classify_char_cases c with h | h | h | h | h | h | h <;> rw [h]
  all_goals first
    | rfl
    | simp +decide [next_state_at, next_state, gettoken_loop_final, error_exit]

/-! ## Scanning right after `set_input` -/

theorem classify_char_nul : classify_char NUL = 6 := by decide

theorem ne_nul_of_classify (c : Char) (h : classify_char c ≠ 6) : c ≠ NUL := by
  intro e
  exact h (e ▸ classify_char_nul)

theorem gettoken_unfold (fuel : Nat) (s : Cursor) :
    gettoken fuel s = gettoken_loop fuel 0 NUL (s.seek s.buffer_pos) := rfl

/-- A first character of class One, TwoToSeven or EightOrNine: `DEC`, and the
character is put back. -/
theorem gettoken_nonzero_digit (fuel : Nat) (c : Char) (tail : List Char) (s0 : Cursor)
    (h : classify_char c = 1 ∨ classify_char c = 2 ∨ classify_char c = 3) :
    gettoken (fuel + 1) (set_input (c :: tail) s0) = .done DEC (set_input (c :: tail) s0) := by
  have hc : c ≠ NUL := ne_nul_of_classify c (by omega)
  have hp := set_input_copied [c] tail s0 (by simpa using hc) (by simp)
  simp only [List.singleton_append, List.length_singleton, Nat.cast_one] at hp
  have h0 := hp.2 0 (by omega)
  simp only [List.getElem?_cons_zero] at h0
  have h1 : nextchar ((set_input (c :: tail) s0).seek 0) = (c, (set_input (c :: tail) s0).seek (0 + 1)) :=
    nextchar_seek_read _ 0 0 c rfl (by omega) h0
  rw [gettoken_unfold, set_input_pos, gettoken_loop_start _ _ _ _ _ h1 hc,
    if_neg (by omega), if_pos h, putback_seek_succ _ 0 c (le_refl 0)]
  rfl

/-- A first character that is no digit: `ERROR`, and the character stays consumed. -/
theorem gettoken_nondigit (fuel : Nat) (c : Char) (tail : List Char) (s0 : Cursor)
    (hc : c ≠ NUL) (h : classify_char c = 4 ∨ classify_char c = 5 ∨ classify_char c = 6) :
    gettoken (fuel + 1) (set_input (c :: tail) s0) =
      .done ERROR ((set_input (c :: tail) s0).seek 1) := by
  have hp := set_input_copied [c] tail s0 (by simpa using hc) (by simp)
  simp only [List.singleton_append, List.length_singleton, Nat.cast_one] at hp
  have h0 := hp.2 0 (by omega)
  simp only [List.getElem?_cons_zero] at h0
  have h1 : nextchar ((set_input (c :: tail) s0).seek 0) = (c, (set_input (c :: tail) s0).seek (0 + 1)) :=
    nextchar_seek_read _ 0 0 c rfl (by omega) h0
  rw [gettoken_unfold, set_input_pos, gettoken_loop_start _ _ _ _ _ h1 hc,
    if_neg (by omega), if_neg (by omega)]
  rfl

/-- The first read of an input that starts with `'0'` enters state 1. -/
theorem gettoken_zero_step (fuel : Nat) (tail : List Char) (s0 : Cursor) :
    gettoken (fuel + 1) (set_input ('0' :: tail) s0) =
      gettoken_loop fuel 1 '0' ((set_input ('0' :: tail) s0).seek 1) := by
  have hp := set_input_copied ['0'] tail s0 (by decide) (by simp)
  simp only [List.singleton_append, List.length_singleton, Nat.cast_one] at hp
  have h0 := hp.2 0 (by omega)
  simp only [List.getElem?_cons_zero] at h0
  have h1 : nextchar ((set_input ('0' :: tail) s0).seek 0) =
      ('0', (set_input ('0' :: tail) s0).seek (0 + 1)) :=
    nextchar_seek_read _ 0 0 '0' rfl (by omega) h0
  rw [gettoken_unfold, set_input_pos, gettoken_loop_start _ _ _ _ _ h1 (by decide),
    if_pos (by decide)]
  rfl

/-- A `'0'` followed by the end of the input: `DEC` at offset 1. -/
theorem gettoken_zero_end (fuel : Nat) (tail : List Char) (s0 : Cursor)
    (hstop : tail = [] ∨ tail.head? = some NUL) :
    gettoken (fuel + 2) (set_input ('0' :: tail) s0) =
      .done DEC ((set_input ('0' :: tail) s0).seek 1) := by
  have hl := set_input_len_stop ['0'] tail s0 (by decide) (by simp) hstop
  simp only [List.singleton_append, List.length_singleton, Nat.cast_one] at hl
  rw [gettoken_zero_step (fuel + 1) tail s0,
    gettoken_loop_eof fuel 1 '0' _ _ (by decide) (nextchar_seek_eof _ 1 (le_of_eq hl))]
  rfl

/-- The second read of an input `'0' :: c :: tail` with `c` not the terminator. -/
theorem gettoken_zero_read (fuel : Nat) (c : Char) (tail : List Char) (s0 : Cursor)
    (hc : c ≠ NUL) :
    gettoken (fuel + 2) (set_input ('0' :: c :: tail) s0) =
      if classify_char c = 4 then
        if get_prefix_state 1 c = ERROR then
          .done ERROR ((set_input ('0' :: c :: tail) s0).seek 2)
        else gettoken_loop fuel (get_prefix_state 1 c) c
          ((set_input ('0' :: c :: tail) s0).seek 2)
      else if classify_char c = 5 then .done ERROR ((set_input ('0' :: c :: tail) s0).seek 2)
      else .done DEC ((set_input ('0' :: c :: tail) s0).seek 1) := by
  have hnul : ∀ d ∈ ['0', c], d ≠ NUL := by
    intro d hd
    simp only [List.mem_cons, List.mem_singleton, List.mem_nil_iff, or_false] at hd
    rcases hd with rfl | rfl
    · decide
    · exact hc
  have hp := set_input_copied ['0', c] tail s0 hnul (by simp)
  simp only [List.cons_append, List.nil_append, List.length_cons, List.length_nil] at hp
  have h1 := hp.2 1 (by omega)
  simp only [List.getElem?_cons_succ, List.getElem?_cons_zero] at h1
  have hlt : (1 : Int) < (set_input ('0' :: c :: tail) s0).buffer_len := by
    have := hp.1
    push_cast at this
    omega
  have h2 : nextchar ((set_input ('0' :: c :: tail) s0).seek 1) =
      (c, (set_input ('0' :: c :: tail) s0).seek (1 + 1)) :=
    nextchar_seek_read _ 1 1 c rfl hlt h1
  rw [gettoken_zero_step (fuel + 1) (c :: tail) s0, gettoken_loop_zero _ _ _ _ _ h2 hc,
    putback_seek_succ _ 1 c (by decide)]
  rfl

/-- The third read, made in one of the states 2..5 at offset 2: whatever
follows the prefix, the radix of the state is returned at offset 2. -/
theorem gettoken_loop_third_read (fuel : Nat) (st : Int) (p : Char) (tail : List Char)
    (s0 : Cursor) (hst : st = 2 ∨ st = 3 ∨ st = 4 ∨ st = 5) (hp : p ≠ NUL) :
    gettoken_loop (fuel + 1) st p ((set_input ('0' :: p :: tail) s0).seek 2) =
      .done (eof_token st) ((set_input ('0' :: p :: tail) s0).seek 2) := by
  have hnf : is_final_state st = false := by
    rcases hst with h | h | h | h <;> subst h <;> decide
  have hnul : ∀ d ∈ ['0', p], d ≠ NUL := by
    intro d hd
    simp only [List.mem_cons, List.mem_singleton, List.mem_nil_iff, or_false] at hd
    rcases hd with rfl | rfl
    · decide
    · exact hp
  have stop : ∀ tl : List Char, (tl = [] ∨ tl.head? = some NUL) →
      gettoken_loop (fuel + 1) st p ((set_input ('0' :: p :: tl) s0).seek 2) =
        .done (eof_token st) ((set_input ('0' :: p :: tl) s0).seek 2) := by
    intro tl htl
    have hl := set_input_len_stop ['0', p] tl s0 hnul (by simp) htl
    simp only [List.cons_append, List.nil_append, List.length_cons, List.length_nil] at hl
    exact gettoken_loop_eof fuel st p _ _ hnf
      (nextchar_seek_eof _ 2 (by rw [hl]; decide))
  cases tail with
  | nil => exact stop [] (Or.inl rfl)
  | cons c r =>
    by_cases hc : c = NUL
    · exact stop (c :: r) (Or.inr (by rw [hc]; rfl))
    · have hnul3 : ∀ d ∈ ['0', p, c], d ≠ NUL := by
        intro d hd
        simp only [List.mem_cons, List.mem_singleton, List.mem_nil_iff, or_false] at hd
        rcases hd with rfl | rfl | rfl
        · decide
        · exact hp
        · exact hc
      have hq := set_input_copied ['0', p, c] r s0 hnul3 (by simp)
      simp only [List.cons_append, List.nil_append, List.length_cons, List.length_nil] at hq
      have h2 := hq.2 2 (by omega)
      simp only [List.getElem?_cons_succ, List.getElem?_cons_zero] at h2
      have hlt : (2 : Int) < (set_input ('0' :: p :: c :: r) s0).buffer_len := by
        have := hq.1
        push_cast at this
        omega
      have h3 : nextchar ((set_input ('0' :: p :: c :: r) s0).seek 2) =
          (c, (set_input ('0' :: p :: c :: r) s0).seek (2 + 1)) :=
        nextchar_seek_read _ 2 2 c rfl hlt h2
      rw [gettoken_loop_radix fuel st p c _ _ hst h3 hc, putback_seek_succ _ 2 c (by decide)]

/-- An input that starts with `'0'` and a prefix letter: the radix of the letter
is returned at offset 2, whatever follows. -/
theorem gettoken_prefixed (fuel : Nat) (p : Char) (tail : List Char) (s0 : Cursor)
    (hp : p = 'b' ∨ p = 'o' ∨ p = 'd' ∨ p = 'h') :
    gettoken (fuel + 3) (set_input ('0' :: p :: tail) s0) =
      .done (eof_token (get_prefix_state 1 p)) ((set_input ('0' :: p :: tail) s0).seek 2) := by
  have hnul : p ≠ NUL := by rcases hp with h | h | h | h <;> subst h <;> decide
  have hcl : classify_char p = 4 := by rcases hp with h | h | h | h <;> subst h <;> decide
  have hst : get_prefix_state 1 p = 2 ∨ get_prefix_state 1 p = 3 ∨ get_prefix_state 1 p = 4 ∨
      get_prefix_state 1 p = 5 := by
    rcases hp with h | h | h | h <;> subst h <;> decide
  have hne : get_prefix_state 1 p ≠ ERROR := by
    rcases hp with h | h | h | h <;> subst h <;> decide
  rw [gettoken_zero_read (fuel + 1) p tail s0 hnul, if_pos hcl, if_neg hne,
    gettoken_loop_third_read fuel _ p tail s0 hst hnul]

/-! ## The closed form of `gettoken` -/

theorem nextchar_of_remaining_nil (s : Cursor) (h0 : 0 ≤ s.buffer_pos)
    (hl : s.buffer_len ≤ 100) (hr : remaining s = []) : nextchar s = (NUL, s) := by
  have hlen := congrArg List.length hr
  simp only [remaining, List.length_drop, List.length_take, s.size_eq, List.length_nil] at hlen
  have : ¬ s.buffer_pos < s.buffer_len := by omega
  simp only [nextchar, if_neg this]

theorem nextchar_of_remaining_cons (s : Cursor) (c : Char) (r : List Char)
    (h0 : 0 ≤ s.buffer_pos) (hr : remaining s = c :: r) :
    nextchar s = (c, s.seek (s.buffer_pos + 1)) ∧ remaining (s.seek (s.buffer_pos + 1)) = r := by
  have hget : (remaining s)[0]? = some c := by rw [hr, List.getElem?_cons_zero]
  simp only [remaining, List.getElem?_drop, Nat.add_zero, List.getElem?_take] at hget
  have hlt : s.buffer_pos.toNat < s.buffer_len.toNat := by
    by_contra hcon
    rw [if_neg hcon] at hget
    exact absurd hget (by simp)
  rw [if_pos hlt] at hget
  have hlt2 : s.buffer_pos < s.buffer_len := by omega
  constructor
  · simp only [nextchar, if_pos hlt2, List.getD_eq_getElem?_getD, hget, Option.getD_some]
    rfl
  · have e : (s.buffer_pos + 1).toNat = s.buffer_pos.toNat + 1 := by omega
    simp only [remaining, seek_buf, seek_len, seek_pos, e]
    rw [← List.drop_drop 1 s.buffer_pos.toNat]
    have : List.drop s.buffer_pos.toNat (List.take s.buffer_len.toNat s.input_buffer) = c :: r := hr
    rw [this]
    rfl

theorem prefix_state_of_class (b : Char) (h : classify_char b = 4) :
    (get_prefix_state 1 b = 2 ∨ get_prefix_state 1 b = 3 ∨ get_prefix_state 1 b = 4 ∨
      get_prefix_state 1 b = 5) ∧ get_prefix_state 1 b ≠ ERROR := by
  have hm : b ∈ ['b', 'o', 'd', 'h'] := (classify_char_sets b).2.1.mp h
  simp only [List.mem_cons, List.mem_singleton, List.mem_nil_iff, or_false] at hm
  rcases hm with e | e | e | e <;> subst e <;> decide

theorem not_final_of_radix_state (st : Int) (h : st = 2 ∨ st = 3 ∨ st = 4 ∨ st = 5) :
    is_final_state st = false := by
  rcases h with h | h | h | h <;> subst h <;> decide

/-- One `gettoken` call on a cursor with `0 <= buffer_pos` and
`buffer_len <= 100` returns what `scan_text` says of the characters still to
be read; three loop passes suffice. -/
theorem gettoken_eq_scan_text (s : Cursor) (h0 : 0 ≤ s.buffer_pos) (hl : s.buffer_len ≤ 100)
    (f : Nat) :
    gettoken (f + 3) s =
      .done (scan_text (remaining s)).1 (s.seek (s.buffer_pos + (scan_text (remaining s)).2)) := by
  show gettoken_loop (f + 3) 0 NUL s = _
  cases hr : remaining s with
  | nil =>
    rw [gettoken_loop_eof (f + 2) 0 NUL s s (by decide) (nextchar_of_remaining_nil s h0 hl hr)]
    simp only [scan_text, Int.add_zero]
    rfl
  | cons a r1 =>
    obtain ⟨hn1, hr1⟩ := nextchar_of_remaining_cons s a r1 h0 hr
    by_cases ha : a = NUL
    · rw [ha] at hn1
      rw [gettoken_loop_eof (f + 2) 0 NUL s _ (by decide) hn1]
      simp only [scan_text, ha, if_true]
      rfl
    · rw [gettoken_loop_start (f + 2) NUL a s _ hn1 ha]
      by_cases hc0 : classify_char a = 0
      · rw [if_pos hc0]
        have h01 : 0 ≤ (s.seek (s.buffer_pos + 1)).buffer_pos := by
          rw [seek_pos]; omega
        have hl1 : (s.seek (s.buffer_pos + 1)).buffer_len ≤ 100 := hl
        cases r1 with
        | nil =>
          rw [gettoken_loop_eof (f + 1) 1 a _ _ (by decide)
            (nextchar_of_remaining_nil _ h01 hl1 hr1)]
          simp only [scan_text, if_neg ha, if_pos hc0]
          rfl
        | cons b r2 =>
          obtain ⟨hn2, hr2⟩ := nextchar_of_remaining_cons _ b r2 h01 hr1
          simp only [seek_pos, seek_seek] at hn2 hr2
          have e2 : s.buffer_pos + 1 + 1 = s.buffer_pos + 2 := by omega
          rw [e2] at hn2 hr2
          by_cases hb : b = NUL
          · rw [hb] at hn2
            rw [gettoken_loop_eof (f + 1) 1 a _ _ (by decide) hn2]
            simp only [scan_text, if_neg ha, if_pos hc0, hb, if_true]
            rfl
          · rw [gettoken_loop_zero (f + 1) a b _ _ hn2 hb]
            by_cases hb4 : classify_char b = 4
            · obtain ⟨hst, hne⟩ := prefix_state_of_class b hb4
              rw [if_pos hb4, if_neg hne]
              have h02 : 0 ≤ (s.seek (s.buffer_pos + 2)).buffer_pos := by
                rw [seek_pos]; omega
              have hl2 : (s.seek (s.buffer_pos + 2)).buffer_len ≤ 100 := hl
              cases r2 with
              | nil =>
                rw [gettoken_loop_eof f _ b _ _ (not_final_of_radix_state _ hst)
                  (nextchar_of_remaining_nil _ h02 hl2 hr2)]
                simp only [scan_text, if_neg ha, if_pos hc0, if_neg hb, if_pos hb4]
              | cons c r3 =>
                obtain ⟨hn3, _⟩ := nextchar_of_remaining_cons _ c r3 h02 hr2
                simp only [seek_pos, seek_seek] at hn3
                have e3 : s.buffer_pos + 2 + 1 = s.buffer_pos + 3 := by omega
                by_cases hcn : c = NUL
                · rw [hcn, e3] at hn3
                  rw [gettoken_loop_eof f _ b _ _ (not_final_of_radix_state _ hst) hn3]
                  simp only [scan_text, if_neg ha, if_pos hc0, if_neg hb, if_pos hb4, hcn,
                    if_true]
                · rw [gettoken_loop_radix f _ b c _ _ hst hn3 hcn,
                    putback_seek_succ s (s.buffer_pos + 2) c (by omega)]
                  simp only [scan_text, if_neg ha, if_pos hc0, if_neg hb, if_pos hb4,
                    if_neg hcn]
            · rw [if_neg hb4]
              by_cases hb5 : classify_char b = 5
              · rw [if_pos hb5]
                simp only [scan_text, if_neg ha, if_pos hc0, if_neg hb, if_neg hb4, if_pos hb5]
              · rw [if_neg hb5, ← e2, putback_seek_succ s (s.buffer_pos + 1) b (by omega)]
                simp only [scan_text, if_neg ha, if_pos hc0, if_neg hb, if_neg hb4, if_neg hb5]
      · rw [if_neg hc0]
        by_cases hd : classify_char a = 1 ∨ classify_char a = 2 ∨ classify_char a = 3
        · rw [if_pos hd, putback_seek_succ s s.buffer_pos a h0]
          simp only [scan_text, if_neg ha, if_neg hc0, if_pos hd, Int.add_zero]
        · rw [if_neg hd]
          simp only [scan_text, if_neg ha, if_neg hc0, if_neg hd]

/-! ## The traced loop -/

theorem traced_final (fuel : Nat) (state : Int) (c : Char) (s : Cursor)
    (h : is_final_state state = true) :
    gettoken_loop_traced fuel state c s =
      (.done (get_token_type state) (putback_char c s), [.putback]) := by
  rw [gettoken_loop_traced.eq_def, if_pos h]

theorem traced_succ (fuel : Nat) (state : Int) (c0 : Char) (s : Cursor)
    (h : is_final_state state = false) :
    gettoken_loop_traced (fuel + 1) state c0 s =
      if (nextchar s).1 = NUL then (.done (eof_token state) (nextchar s).2, [.read])
      else if state = 1 ∧ classify_char (nextchar s).1 = COL_PREFIX then
        if get_prefix_state state (nextchar s).1 = ERROR then (.done ERROR (nextchar s).2, [.read])
        else
          ((gettoken_loop_traced fuel (get_prefix_state state (nextchar s).1) (nextchar s).1
              (nextchar s).2).1,
            .read :: (gettoken_loop_traced fuel (get_prefix_state state (nextchar s).1)
              (nextchar s).1 (nextchar s).2).2)
      else
        match next_state_at state (classify_char (nextchar s).1) with
        | none => (.out_of_bounds, [.read, .lookup state (classify_char (nextchar s).1)])
        | some next =>
          if next = ERROR then
            (error_exit state (nextchar s).1 (nextchar s).2,
              .read :: .lookup state (classify_char (nextchar s).1) :: error_exit_events state)
          else
            ((gettoken_loop_traced fuel next (nextchar s).1 (nextchar s).2).1,
              .read :: .lookup state (classify_char (nextchar s).1) ::
                (gettoken_loop_traced fuel next (nextchar s).1 (nextchar s).2).2) := by
  conv_lhs => rw [gettoken_loop_traced.eq_def]
  simp only [h, Bool.false_eq_true, if_false]

/-- The traced loop returns the outcome of `gettoken_loop`. -/
theorem traced_fst (fuel : Nat) : ∀ (state : Int) (c : Char) (s : Cursor),
    (gettoken_loop_traced fuel state c s).1 = gettoken_loop fuel state c s := by
  induction fuel with
  | zero =>
    intro state c s
    rw [gettoken_loop_traced.eq_def, gettoken_loop.eq_def]
    split <;> rfl
  | succ n ih =>
    intro state c s
    by_cases hf : is_final_state state = true
    · rw [traced_final _ _ _ _ hf, gettoken_loop_final _ _ _ _ hf]
    · have hf' : is_final_state state = false := by simpa using hf
      rw [traced_succ n state c s hf', gettoken_loop_succ n state c s hf']
      by_cases h1 : (nextchar s).1 = NUL
      · simp only [if_pos h1]
      · simp only [if_neg h1]
        by_cases h2 : state = 1 ∧ classify_char (nextchar s).1 = COL_PREFIX
        · simp only [if_pos h2]
          by_cases h3 : get_prefix_state state (nextchar s).1 = ERROR
          · simp only [if_pos h3]
          · simp only [if_neg h3]
            exact ih _ _ _
        · simp only [if_neg h2]
          cases hnx : next_state_at state (classify_char (nextchar s).1) with
          | none => rfl
          | some next =>
            by_cases h4 : next = ERROR
            · simp only [if_pos h4]
            · simp only [if_neg h4]
              exact ih _ _ _

theorem count_read_lookup (st cl : Int) (l : List Event) :
    List.count Event.read (Event.lookup st cl :: l) = List.count Event.read l := by
  simp [List.count_cons]

theorem table_facts (state cls : Int) (hs0 : 0 ≤ state) (hs9 : state ≤ 9) (hc0 : 0 ≤ cls)
    (hc6 : cls ≤ 6) (hf : is_final_state state = false) :
    state ≤ 5 ∧ ∃ r, next_state_at state cls = some r ∧
      (r = ERROR ∨ is_final_state r = true ∨ (state = 0 ∧ r = 1) ∨ (state = 1 ∧ cls = 4)) := by
  have hs : state = 0 ∨ state = 1 ∨ state = 2 ∨ state = 3 ∨ state = 4 ∨ state = 5 ∨
      state = 6 ∨ state = 7 ∨ state = 8 ∨ state = 9 := by omega
  have hc : cls = 0 ∨ cls = 1 ∨ cls = 2 ∨ cls = 3 ∨ cls = 4 ∨ cls = 5 ∨ cls = 6 := by omega
  rcases hs with rfl | rfl | rfl | rfl | rfl | rfl | rfl | rfl | rfl | rfl <;>
    rcases hc with rfl | rfl | rfl | rfl | rfl | rfl | rfl <;>
    first
      | exact absurd hf (by decide)
      | exact ⟨by decide, _, rfl, by decide⟩

theorem passes_left_pos (state : Int) (hs0 : 0 ≤ state) (hs5 : state ≤ 5) :
    1 ≤ passes_left state := by
  have hs : state = 0 ∨ state = 1 ∨ state = 2 ∨ state = 3 ∨ state = 4 ∨ state = 5 := by omega
  rcases hs with rfl | rfl | rfl | rfl | rfl | rfl <;> decide

theorem error_exit_done (state : Int) (c : Char) (s : Cursor) :
    ∃ tok s', error_exit state c s = .done tok s' := by
  unfold error_exit
  split_ifs <;> exact ⟨_, _, rfl⟩

theorem error_exit_events_spec (state : Int) :
    List.count Event.putback (error_exit_events state) ≤ 1 ∧
    List.count Event.read (error_exit_events state) = 0 ∧
    ∀ st cl, Event.lookup st cl ∉ error_exit_events state := by
  unfold error_exit_events
  split_ifs <;> simp

/-- Every run of the traced loop from a state in `0..9`: at most one
`putback_char`, at most `passes_left state` reads, every table lookup with a
state in `0..5` and a class in `0..6`, and a returned token as soon as the fuel
covers `passes_left state`. -/
theorem traced_spec (fuel : Nat) : ∀ (state : Int) (c : Char) (s : Cursor),
    0 ≤ state → state ≤ 9 →
    List.count Event.putback (gettoken_loop_traced fuel state c s).2 ≤ 1 ∧
    List.count Event.read (gettoken_loop_traced fuel state c s).2 ≤ passes_left state ∧
    (∀ st cl, Event.lookup st cl ∈ (gettoken_loop_traced fuel state c s).2 →
      0 ≤ st ∧ st ≤ 5 ∧ 0 ≤ cl ∧ cl ≤ 6) ∧
    (passes_left state ≤ fuel →
      ∃ tok s', (gettoken_loop_traced fuel state c s).1 = .done tok s') := by
  induction fuel with
  | zero =>
    intro state c s hs0 hs9
    by_cases hf : is_final_state state = true
    · rw [traced_final _ _ _ _ hf]
      exact ⟨by simp, by simp, by simp, fun _ => ⟨_, _, rfl⟩⟩
    · have hf' : is_final_state state = false := by simpa using hf
      have h5 := (table_facts state 0 hs0 hs9 (le_refl 0) (by decide) hf').1
      have hp := passes_left_pos state hs0 h5
      rw [gettoken_loop_traced.eq_def, if_neg hf]
      exact ⟨by simp, by simp, by simp, fun h => absurd h (by omega)⟩
  | succ n ih =>
    intro state c s hs0 hs9
    by_cases hf : is_final_state state = true
    · rw [traced_final _ _ _ _ hf]
      exact ⟨by simp, by simp, by simp, fun _ => ⟨_, _, rfl⟩⟩
    · have hf' : is_final_state state = false := by simpa using hf
      have h5 := (table_facts state 0 hs0 hs9 (le_refl 0) (by decide) hf').1
      have hp := passes_left_pos state hs0 h5
      rw [traced_succ n state c s hf']
      by_cases h1 : (nextchar s).1 = NUL
      · simp only [if_pos h1]
        exact ⟨by simp, by simpa using hp, by simp, fun _ => ⟨_, _, rfl⟩⟩
      · simp only [if_neg h1]
        by_cases h2 : state = 1 ∧ classify_char (nextchar s).1 = COL_PREFIX
        · simp only [if_pos h2]
          obtain ⟨hst, hne⟩ := prefix_state_of_class (nextchar s).1 h2.2
          obtain ⟨e1, _⟩ := h2
          subst e1
          simp only [if_neg hne]
          have hpl : passes_left (get_prefix_state 1 (nextchar s).1) = 1 := by
            rcases hst with e | e | e | e <;> rw [e] <;> decide
          obtain ⟨i1, i2, i3, i4⟩ := ih (get_prefix_state 1 (nextchar s).1) (nextchar s).1
            (nextchar s).2 (by omega) (by omega)
          refine ⟨by simpa using i1, ?_, ?_, ?_⟩
          · rw [hpl] at i2
            have : passes_left 1 = 2 := by decide
            rw [this]
            simp only [List.count_cons_self]
            omega
          · intro st cl hm
            simp only [List.mem_cons, reduceCtorEq, false_or] at hm
            exact i3 st cl hm
          · intro hle
            have : passes_left 1 = 2 := by decide
            exact i4 (by omega)
        · simp only [if_neg h2]
          have hcl : 0 ≤ classify_char (nextchar s).1 ∧ classify_char (nextchar s).1 ≤ 6 := by
            rcases classify_char_cases (nextchar s).1 with h | h | h | h | h | h | h <;> omega
          obtain ⟨_, r, hr, hcase⟩ := table_facts state (classify_char (nextchar s).1) hs0 hs9
            hcl.1 hcl.2 hf'
          simp only [hr]
          by_cases h4 : r = ERROR
          · simp only [if_pos h4]
            obtain ⟨x1, x2, x3⟩ := error_exit_events_spec state
            refine ⟨by simpa using x1, ?_, ?_, fun _ => error_exit_done _ _ _⟩
            · simp only [List.count_cons_self, count_read_lookup, x2]
              omega
            · intro st cl hm
              simp only [List.mem_cons, reduceCtorEq, false_or, Event.lookup.injEq] at hm
              rcases hm with ⟨e1, e2⟩ | hm
              · subst e1 e2
                exact ⟨hs0, h5, hcl.1, hcl.2⟩
              · exact absurd hm (x3 st cl)
          · simp only [if_neg h4]
            rcases hcase with h | h | h | h
            · exact absurd h h4
            · rw [traced_final _ _ _ _ h]
              refine ⟨by simp, ?_, ?_, fun _ => ⟨_, _, rfl⟩⟩
              · have e : List.count Event.read [Event.putback] = 0 := by decide
                simp only [List.count_cons_self, count_read_lookup, e]
                omega
              · intro st cl hm
                simp only [List.mem_cons, reduceCtorEq, false_or, Event.lookup.injEq] at hm
                rcases hm with ⟨e1, e2⟩ | hm
                · subst e1 e2
                  exact ⟨hs0, h5, hcl.1, hcl.2⟩
                · exact absurd hm (List.not_mem_nil _)
            · obtain ⟨e0, e1⟩ := h
              subst e0 e1
              obtain ⟨i1, i2, i3, i4⟩ := ih 1 (nextchar s).1 (nextchar s).2 (by decide)
                (by decide)
              have p0 : passes_left 0 = 3 := by decide
              have p1 : passes_left 1 = 2 := by decide
              refine ⟨by simpa using i1, ?_, ?_, ?_⟩
              · rw [p1] at i2
                rw [p0]
                simp only [List.count_cons_self, count_read_lookup]
                omega
              · intro st cl hm
                simp only [List.mem_cons, reduceCtorEq, false_or, Event.lookup.injEq] at hm
                rcases hm with ⟨e1, e2⟩ | hm
                · subst e1 e2
                  exact ⟨hs0, h5, hcl.1, hcl.2⟩
                · exact i3 st cl hm
              · intro hle
                exact i4 (by omega)
            · exact absurd h h2

/-! ## What `set_input` stores -/

theorem set_input_loop_snd_le (str : List Char) (i : Nat) (buf : List Char) (hi : i ≤ 99) :
    (set_input_loop str i buf).2 ≤ 99 := by
  induction str generalizing i buf with
  | nil => exact hi
  | cons c rest ih =>
    unfold set_input_loop
    split
    · rename_i h
      exact ih (i + 1) (buf.set i c) (by omega)
    · exact hi

theorem set_input_stored (pre rest : List Char) (s0 : Cursor)
    (hnul : ∀ c ∈ pre, c ≠ NUL) (h99 : pre.length ≤ 99)
    (hstop : rest = [] ∨ rest.head? = some NUL ∨ pre.length = 99) :
    (set_input (pre ++ rest) s0).buffer_len = pre.length ∧
    (∀ j, j < pre.length → (set_input (pre ++ rest) s0).input_buffer[j]? = pre[j]?) ∧
    (set_input (pre ++ rest) s0).input_buffer[pre.length]? = some NUL := by
  have hc := set_input_copied pre rest s0 hnul h99
  have hlen : (set_input_loop (pre ++ rest) 0 s0.input_buffer).2 = pre.length := by
    rcases hstop with h | h | h
    · have := set_input_loop_stop pre rest 0 s0.input_buffer hnul (by omega) (Or.inl h)
      omega
    · have := set_input_loop_stop pre rest 0 s0.input_buffer hnul (by omega) (Or.inr h)
      omega
    · have h1 := set_input_loop_snd_le (pre ++ rest) 0 s0.input_buffer (by omega)
      have h2 : (pre.length : Int) ≤ (set_input_loop (pre ++ rest) 0 s0.input_buffer).2 := hc.1
      omega
  refine ⟨by simp only [set_input, hlen], hc.2, ?_⟩
  simp only [set_input, hlen]
  rw [List.getElem?_set_self]
  rw [set_input_loop_length, s0.size_eq]
  omega

theorem remaining_set_input (pre rest : List Char) (s0 : Cursor)
    (hnul : ∀ c ∈ pre, c ≠ NUL) (h99 : pre.length ≤ 99)
    (hstop : rest = [] ∨ rest.head? = some NUL ∨ pre.length = 99) :
    remaining (set_input (pre ++ rest) s0) = pre := by
  obtain ⟨hl, hb, _⟩ := set_input_stored pre rest s0 hnul h99 hstop
  simp only [remaining, hl, set_input_pos, Int.toNat_ofNat, Int.toNat_zero, List.drop_zero]
  apply List.ext_getElem?
  intro j
  rw [List.getElem?_take]
  by_cases hj : j < pre.length
  · rw [if_pos hj, hb j hj]
  · rw [if_neg hj]
    exact (List.getElem?_eq_none (by omega)).symm

theorem exists_copied_part (str : List Char) (n : Nat) :
    ∃ pre rest, str = pre ++ rest ∧ (∀ c ∈ pre, c ≠ NUL) ∧ pre.length ≤ n ∧
      (rest = [] ∨ rest.head? = some NUL ∨ pre.length = n) := by
  induction str generalizing n with
  | nil => exact ⟨[], [], rfl, by simp, Nat.zero_le n, Or.inl rfl⟩
  | cons c t ih =>
    by_cases hn : n = 0
    · exact ⟨[], c :: t, rfl, by simp, Nat.zero_le n, Or.inr (Or.inr (by simp [hn]))⟩
    · by_cases hc : c = NUL
      · exact ⟨[], c :: t, rfl, by simp, Nat.zero_le n, Or.inr (Or.inl (by simp [hc]))⟩
      · obtain ⟨pre, rest, e, h1, h2, h3⟩ := ih (n - 1)
        refine ⟨c :: pre, rest, by rw [e]; rfl, ?_, ?_, ?_⟩
        · intro d hd
          rcases List.mem_cons.mp hd with h | h
          · rw [h]; exact hc
          · exact h1 d h
        · simp only [List.length_cons]; omega
        · rcases h3 with h | h | h
          · exact Or.inl h
          · exact Or.inr (Or.inl h)
          · exact Or.inr (Or.inr (by simp only [List.length_cons]; omega))

/-- Whatever its argument and the cursor before, `set_input` leaves at most 99
stored characters, none of them the terminator. -/
theorem set_input_content (str : List Char) (s0 : Cursor) :
    (set_input str s0).buffer_len ≤ 99 ∧
    ∀ c ∈ (set_input str s0).input_buffer.take (set_input str s0).buffer_len.toNat,
      c ≠ NUL := by
  obtain ⟨pre, rest, e, h1, h2, h3⟩ := exists_copied_part str 99
  have hr := remaining_set_input pre rest s0 h1 h2 h3
  have hl := (set_input_stored pre rest s0 h1 h2 h3).1
  rw [e]
  refine ⟨by rw [hl]; exact_mod_cast h2, ?_⟩
  have : remaining (set_input (pre ++ rest) s0) =
      (set_input (pre ++ rest) s0).input_buffer.take
        (set_input (pre ++ rest) s0).buffer_len.toNat := by
    simp only [remaining, set_input_pos, Int.toNat_zero, List.drop_zero]
  rw [← this, hr]
  exact h1

/-- For a text without terminator, `set_input` leaves its first 99 characters
to be read. -/
theorem remaining_set_input_text (t : List Char) (s0 : Cursor) (hnul : ∀ c ∈ t, c ≠ NUL) :
    remaining (set_input t s0) = t.take 99 ∧
    (set_input t s0).buffer_len = (min t.length 99 : Nat) ∧
    (set_input t s0).input_buffer[min t.length 99]? = some NUL := by
  have hpre : ∀ c ∈ t.take 99, c ≠ NUL := fun c hc => hnul c (List.mem_of_mem_take hc)
  have hlen : (t.take 99).length = min t.length 99 := by
    rw [List.length_take, Nat.min_comm]
  have hstop : t.drop 99 = [] ∨ (t.drop 99).head? = some NUL ∨ (t.take 99).length = 99 := by
    by_cases h : t.length ≤ 99
    · exact Or.inl (List.drop_eq_nil_iff.mpr h)
    · exact Or.inr (Or.inr (by rw [hlen]; omega))
  have h99 : (t.take 99).length ≤ 99 := by rw [hlen]; omega
  have hr := remaining_set_input (t.take 99) (t.drop 99) s0 hpre h99 hstop
  have hs := set_input_stored (t.take 99) (t.drop 99) s0 hpre h99 hstop
  rw [List.take_append_drop] at hr hs
  rw [hlen] at hs
  exact ⟨hr, hs.1, hs.2.2⟩

/-! ## Facts about the closed form -/

theorem scan_text_take (l : List Char) (n : Nat) (hn : 3 ≤ n) :
    scan_text (l.take n) = scan_text l := by
  obtain ⟨m, rfl⟩ := Nat.exists_eq_add_of_le' hn
  rcases l with _ | ⟨a, _ | ⟨b, _ | ⟨c, r⟩⟩⟩ <;> simp [scan_text, List.take]

theorem scan_text_take_two (l : List Char) :
    (scan_text (l.take 2)).1 = (scan_text l).1 := by
  rcases l with _ | ⟨a, _ | ⟨b, _ | ⟨c, r⟩⟩⟩
  · rfl
  · rfl
  · rfl
  · simp only [List.take, scan_text]
    split_ifs <;> rfl

theorem scan_text_adv (l : List Char) :
    0 ≤ (scan_text l).2 ∧ (scan_text l).2 ≤ l.length ∧ (scan_text l).2 ≤ 3 ∧
    ((∀ c ∈ l, c ≠ NUL) → (scan_text l).2 ≤ 2) := by
  rcases l with _ | ⟨a, _ | ⟨b, _ | ⟨c, r⟩⟩⟩
  · simp [scan_text]
  · simp only [scan_text]
    split_ifs <;> simp
  · simp only [scan_text]
    split_ifs <;> simp
  · simp only [scan_text]
    split_ifs <;> simp_all <;> omega

theorem remaining_length (s : Cursor) (h0 : 0 ≤ s.buffer_pos)
    (hle : s.buffer_pos ≤ s.buffer_len) (hl : s.buffer_len ≤ 100) :
    ((remaining s).length : Int) = s.buffer_len - s.buffer_pos := by
  simp only [remaining, List.length_drop, List.length_take, s.size_eq]
  omega

theorem remaining_nul_free (s : Cursor)
    (hnul : ∀ c ∈ s.input_buffer.take s.buffer_len.toNat, c ≠ NUL) :
    ∀ c ∈ remaining s, c ≠ NUL :=
  fun c hc => hnul c (List.mem_of_mem_drop hc)

theorem read_chars_eof (s : Cursor) (h : nextchar s = (NUL, s)) (k : Nat) :
    read_chars k s = List.replicate k NUL := by
  induction k with
  | zero => rfl
  | succ k ih =>
    rw [read_chars, h, List.replicate_succ]
    simp only [ih]

theorem read_chars_remaining (k : Nat) (l : List Char) : ∀ (s : Cursor), remaining s = l →
    0 ≤ s.buffer_pos → s.buffer_len ≤ 100 →
    read_chars (l.length + k) s = l ++ List.replicate k NUL := by
  induction l with
  | nil =>
    intro s hr h0 hl
    rw [List.length_nil, Nat.zero_add, List.nil_append]
    exact read_chars_eof s (nextchar_of_remaining_nil s h0 hl hr) k
  | cons c r ih =>
    intro s hr h0 hl
    obtain ⟨hn, hr'⟩ := nextchar_of_remaining_cons s c r h0 hr
    rw [show (c :: r).length + k = (r.length + k) + 1 by simp only [List.length_cons]; omega,
      read_chars, hn]
    simp only [List.cons_append]
    rw [ih (s.seek (s.buffer_pos + 1)) hr' (by rw [seek_pos]; omega) hl]

theorem classify_char_zero_iff (a : Char) : classify_char a = 0 ↔ a = '0' := by
  rw [classify_char_eq_reference]
  unfold classify_reference
  constructor
  · intro h
    split_ifs at h with h1 <;> first | exact h1 | exact absurd h (by decide)
  · intro h
    rw [if_pos h]

theorem eof_token_radix (st : Int) (h : st = 2 ∨ st = 3 ∨ st = 4 ∨ st = 5) :
    eof_token st = BIN ∨ eof_token st = OCT ∨ eof_token st = DEC ∨ eof_token st = HEX := by
  rcases h with h | h | h | h <;> subst h <;> decide

/-- The token of the closed form is `ERROR` exactly for the empty text, a
first character that is no digit, and `'0'` followed by a hexadecimal letter
that is no prefix letter. -/
theorem scan_text_kind (t : List Char) (hnul : ∀ c ∈ t, c ≠ NUL) :
    ((scan_text t).1 = ERROR ↔
      (t = [] ∨ (∃ a r, t = a :: r ∧ a ∉ ['0', '1', '2', '3', '4', '5', '6', '7', '8', '9']) ∨
        (∃ b r, t = '0' :: b :: r ∧ b ∈ ['A', 'B', 'C', 'D', 'E', 'F', 'a', 'c', 'e', 'f']))) ∧
    ((scan_text t).1 = ERROR ∨ (scan_text t).1 = BIN ∨ (scan_text t).1 = OCT ∨
      (scan_text t).1 = DEC ∨ (scan_text t).1 = HEX) := by
  rcases t with _ | ⟨a, r⟩
  · exact ⟨⟨fun _ => Or.inl rfl, fun _ => rfl⟩, Or.inl rfl⟩
  · have ha : a ≠ NUL := hnul a (List.mem_cons_self a r)
    have hsa := classify_char_sets a
    by_cases hz : classify_char a = 0
    · have ea : a = '0' := (classify_char_zero_iff a).mp hz
      have hdig : a ∈ ['0', '1', '2', '3', '4', '5', '6', '7', '8', '9'] := by
        rw [ea]; decide
      rcases r with _ | ⟨b, r2⟩
      · have e : (scan_text [a]).1 = DEC := by simp only [scan_text, if_neg ha, if_pos hz]
        rw [e]
        refine ⟨⟨fun h => absurd h (by decide), ?_⟩, Or.inr (Or.inr (Or.inr (Or.inl rfl)))⟩
        rintro (h | ⟨a', r', h, hn⟩ | ⟨b', r', h⟩)
        · exact absurd h (by simp)
        · simp only [List.cons.injEq] at h
          rw [← h.1] at hn
          exact absurd hdig hn
        · simp at h
      · have hb : b ≠ NUL := hnul b (by simp)
        have hsb := classify_char_sets b
        have cond_iff : (a :: b :: r2 = [] ∨
            (∃ a' r, a :: b :: r2 = a' :: r ∧
              a' ∉ ['0', '1', '2', '3', '4', '5', '6', '7', '8', '9']) ∨
            (∃ b' r, a :: b :: r2 = '0' :: b' :: r ∧
              b' ∈ ['A', 'B', 'C', 'D', 'E', 'F', 'a', 'c', 'e', 'f'])) ↔
            classify_char b = 5 := by
          rw [hsb.2.2]
          constructor
          · rintro (h | ⟨a', r', h, hn⟩ | ⟨b', r', h, hm⟩)
            · exact absurd h (by simp)
            · simp only [List.cons.injEq] at h
              rw [← h.1] at hn
              exact absurd hdig hn
            · simp only [List.cons.injEq] at h
              rw [h.2.1]
              exact hm
          · intro h
            exact Or.inr (Or.inr ⟨b, r2, by rw [ea], h⟩)
        rw [cond_iff]
        by_cases h4 : classify_char b = 4
        · have e : (scan_text (a :: b :: r2)).1 = eof_token (get_prefix_state 1 b) := by
            simp only [scan_text, if_neg ha, if_pos hz, if_neg hb, if_pos h4]
            rcases r2 with _ | ⟨c, r3⟩
            · rfl
            · simp only []
              split_ifs <;> rfl
          have hrad := eof_token_radix _ (prefix_state_of_class b h4).1
          rw [e]
          refine ⟨⟨fun h => ?_, fun h => by omega⟩, Or.inr hrad⟩
          rcases hrad with h' | h' | h' | h' <;> rw [h'] at h <;> exact absurd h (by decide)
        · by_cases h5 : classify_char b = 5
          · have e : (scan_text (a :: b :: r2)).1 = ERROR := by
              simp only [scan_text, if_neg ha, if_pos hz, if_neg hb, if_neg h4, if_pos h5]
            rw [e]
            exact ⟨⟨fun _ => h5, fun _ => rfl⟩, Or.inl rfl⟩
          · have e : (scan_text (a :: b :: r2)).1 = DEC := by
              simp only [scan_text, if_neg ha, if_pos hz, if_neg hb, if_neg h4, if_neg h5]
            rw [e]
            exact ⟨⟨fun h => absurd h (by decide), fun h => absurd h h5⟩,
              Or.inr (Or.inr (Or.inr (Or.inl rfl)))⟩
    · have hne0 : a ≠ '0' := fun h => hz ((classify_char_zero_iff a).mpr h)
      by_cases hd : classify_char a = 1 ∨ classify_char a = 2 ∨ classify_char a = 3
      · have e : (scan_text (a :: r)).1 = DEC := by
          simp only [scan_text, if_neg ha, if_neg hz, if_pos hd]
        have hdig : a ∈ ['0', '1', '2', '3', '4', '5', '6', '7', '8', '9'] :=
          hsa.1.mp (by omega)
        rw [e]
        refine ⟨⟨fun h => absurd h (by decide), ?_⟩, Or.inr (Or.inr (Or.inr (Or.inl rfl)))⟩
        rintro (h | ⟨a', r', h, hn⟩ | ⟨b', r', h, _⟩)
        · exact absurd h (by simp)
        · simp only [List.cons.injEq] at h
          rw [← h.1] at hn
          exact absurd hdig hn
        · simp only [List.cons.injEq] at h
          exact absurd h.1 hne0
      · have e : (scan_text (a :: r)).1 = ERROR := by
          simp only [scan_text, if_neg ha, if_neg hz, if_neg hd]
        have hnd : a ∉ ['0', '1', '2', '3', '4', '5', '6', '7', '8', '9'] := by
          intro hm
          have := hsa.1.mpr hm
          rcases classify_char_cases a with h | h | h | h | h | h | h <;> omega
        rw [e]
        exact ⟨⟨fun _ => Or.inr (Or.inl ⟨a, r, rfl, hnd⟩), fun _ => rfl⟩, Or.inl rfl⟩

/-- Right after `set_input` of a text without terminator, `gettoken` returns
what the closed form says of the text. -/
theorem gettoken_set_input_text (t : List Char) (s0 : Cursor) (f : Nat)
    (hnul : ∀ c ∈ t, c ≠ NUL) :
    gettoken (f + 3) (set_input t s0) =
      .done (scan_text t).1 ((set_input t s0).seek ((scan_text t).2)) := by
  have hr := (remaining_set_input_text t s0 hnul).1
  have hl : (set_input t s0).buffer_len ≤ 100 := by
    have := (set_input_content t s0).1
    omega
  have h := gettoken_eq_scan_text (set_input t s0) (by rw [set_input_pos]) hl f
  rw [hr, scan_text_take t 99 (by decide), set_input_pos, Int.zero_add] at h
  exact h

theorem gettoken_traced_fst (fuel : Nat) (s : Cursor) :
    (gettoken_traced fuel s).1 = gettoken fuel s :=
  traced_fst fuel START_STATE NUL s

/-- From a state in `0..9` the loop never indexes the table outside its
bounds, whatever the fuel. -/
theorem gettoken_loop_in_bounds (fuel : Nat) : ∀ (state : Int) (c : Char) (s : Cursor),
    0 ≤ state → state ≤ 9 → gettoken_loop fuel state c s ≠ .out_of_bounds := by
  induction fuel with
  | zero =>
    intro state c s _ _
    rw [gettoken_loop.eq_def]
    split <;> simp
  | succ n ih =>
    intro state c s hs0 hs9
    by_cases hf : is_final_state state = true
    · rw [gettoken_loop_final _ _ _ _ hf]
      simp
    · have hf' : is_final_state state = false := by simpa using hf
      rw [gettoken_loop_succ n state c s hf']
      by_cases h1 : (nextchar s).1 = NUL
      · simp only [if_pos h1]
        simp
      · simp only [if_neg h1]
        by_cases h2 : state = 1 ∧ classify_char (nextchar s).1 = COL_PREFIX
        · simp only [if_pos h2]
          obtain ⟨hst, hne⟩ := prefix_state_of_class (nextchar s).1 h2.2
          obtain ⟨e1, _⟩ := h2
          subst e1
          simp only [if_neg hne]
          exact ih _ _ _ (by omega) (by omega)
        · simp only [if_neg h2]
          have hcl : 0 ≤ classify_char (nextchar s).1 ∧ classify_char (nextchar s).1 ≤ 6 := by
            rcases classify_char_cases (nextchar s).1 with h | h | h | h | h | h | h <;> omega
          obtain ⟨_, r, hr, hcase⟩ := table_facts state (classify_char (nextchar s).1) hs0 hs9
            hcl.1 hcl.2 hf'
          simp only [hr]
          by_cases h4 : r = ERROR
          · simp only [if_pos h4]
            obtain ⟨tok, s', e⟩ := error_exit_done state (nextchar s).1 (nextchar s).2
            rw [e]
            simp
          · simp only [if_neg h4]
            rcases hcase with h | h | h | h
            · exact absurd h h4
            · rw [gettoken_loop_final _ _ _ _ h]
              simp
            · rw [h.2]
              exact ih _ _ _ (by decide) (by decide)
            · exact absurd h h2

/-! ## The claims -/

/-- C1: right after `set_input("0" ++ p ++ body)`, where `p` is one of the
prefix letters `b`, `o`, `d`, `h` and `body` (possibly empty) holds only digits
valid for the radix of `p`, `gettoken` returns the token kind of that radix:
`BIN` for `b`, `OCT` for `o`, `DEC` for `d`, `HEX` for `h`. Three loop passes
suffice, and the result holds for inputs of any length. -/
theorem C1_prefixed_literal_kind (s0 : Cursor) (fuel : Nat) (hfuel : 3 ≤ fuel)
    (body : List Char) :
    ((∀ c ∈ body, c ∈ ['0', '1']) →
      (gettoken fuel (set_input ('0' :: 'b' :: body) s0)).token = some BIN) ∧
    ((∀ c ∈ body, c ∈ ['0', '1', '2', '3', '4', '5', '6', '7']) →
      (gettoken fuel (set_input ('0' :: 'o' :: body) s0)).token = some OCT) ∧
    ((∀ c ∈ body, c ∈ ['0', '1', '2', '3', '4', '5', '6', '7', '8', '9']) →
      (gettoken fuel (set_input ('0' :: 'd' :: body) s0)).token = some DEC) ∧
    ((∀ c ∈ body, c ∈ ['0', '1', '2', '3', '4', '5', '6', '7', '8', '9',
        'A', 'B', 'C', 'D', 'E', 'F', 'a', 'b', 'c', 'd', 'e', 'f']) →
      (gettoken fuel (set_input ('0' :: 'h' :: body) s0)).token = some HEX) := by
  obtain ⟨f, rfl⟩ := Nat.exists_eq_add_of_le' hfuel
  refine ⟨fun _ => ?_, fun _ => ?_, fun _ => ?_, fun _ => ?_⟩
  · rw [gettoken_prefixed f 'b' body s0 (by decide)]; rfl
  · rw [gettoken_prefixed f 'o' body s0 (by decide)]; rfl
  · rw [gettoken_prefixed f 'd' body s0 (by decide)]; rfl
  · rw [gettoken_prefixed f 'h' body s0 (by decide)]; rfl

/-- Witness of C1 at fuel 3, start-up cursor, body `101`. -/
theorem C1_prefixed_literal_kind_witness :
    3 ≤ 3 ∧ (∀ c ∈ ['1', '0', '1'], c ∈ ['0', '1']) ∧
    (gettoken 3 (set_input ['0', 'b', '1', '0', '1'] Cursor.initial)).token = some BIN :=
  ⟨by decide, by decide,
    (C1_prefixed_literal_kind Cursor.initial 3 (by decide) ['1', '0', '1']).1 (by decide)⟩

/-- C2: right after `set_input` of an input whose first character is one of
`'1'..'9'`, whatever follows, and of the bare input `"0"`, `gettoken` returns
`DEC`; in particular for each single digit and for `"123"`. -/
theorem C2_leading_digit_is_decimal (s0 : Cursor) (fuel : Nat) (hfuel : 3 ≤ fuel) :
    (∀ (c : Char) (rest : List Char), c ∈ ['1', '2', '3', '4', '5', '6', '7', '8', '9'] →
      (gettoken fuel (set_input (c :: rest) s0)).token = some DEC) ∧
    (gettoken fuel (set_input ['0'] s0)).token = some DEC ∧
    (gettoken fuel (set_input ['1', '2', '3'] s0)).token = some DEC := by
  obtain ⟨f, rfl⟩ := Nat.exists_eq_add_of_le' hfuel
  have key : ∀ (c : Char) (rest : List Char),
      c ∈ ['1', '2', '3', '4', '5', '6', '7', '8', '9'] →
      (gettoken (f + 3) (set_input (c :: rest) s0)).token = some DEC := by
    intro c rest hc
    have hcl : classify_char c = 1 ∨ classify_char c = 2 ∨ classify_char c = 3 := by
      simp only [List.mem_cons, List.mem_singleton, List.mem_nil_iff, or_false] at hc
      rcases hc with h | h | h | h | h | h | h | h | h <;> subst h <;> decide
    rw [gettoken_nonzero_digit (f + 2) c rest s0 hcl]
    rfl
  refine ⟨key, ?_, key '1' ['2', '3'] (by decide)⟩
  rw [gettoken_zero_end (f + 1) [] s0 (Or.inl rfl)]
  rfl

/-- Witness of C2 at fuel 3 and the start-up cursor, read at the input `"9x"`. -/
theorem C2_leading_digit_is_decimal_witness :
    3 ≤ 3 ∧ (gettoken 3 (set_input ['9', 'x'] Cursor.initial)).token = some DEC :=
  ⟨by decide,
    (C2_leading_digit_is_decimal Cursor.initial 3 (by decide)).1 '9' ['x'] (by decide)⟩

/-- C3, refuted as stated: after `set_input("0b101")` one `gettoken` call
returns with the read offset at 2, not at `2 + length "101" = 5`. -/
theorem C3_maximal_munch_counterexample :
    (gettoken 3 (set_input "0b101".toList Cursor.initial)).pos = some 2 ∧
    (gettoken 3 (set_input "0b101".toList Cursor.initial)).pos ≠
      some (2 + ("101".toList.length : Int)) := by
  decide

/-- C3, amended: for every input `"0" ++ p ++ body ++ rest` with `p` one of
`b`, `o`, `d`, `h`, one `gettoken` call right after `set_input` stops right
behind the prefix: the read offset on return is exactly 2, for every `body` and
`rest`. Entering a final state ends the loop: in a final state `gettoken`
reads nothing more, puts one character back and returns. -/
theorem C3_scan_stops_behind_prefix_letter (s0 : Cursor) (fuel : Nat) (hfuel : 3 ≤ fuel)
    (p : Char) (body rest : List Char) (hp : p ∈ ['b', 'o', 'd', 'h']) :
    (gettoken fuel (set_input ('0' :: p :: (body ++ rest)) s0)).pos = some 2 ∧
    ∀ (n : Nat) (state : Int) (c : Char) (s : Cursor), is_final_state state = true →
      gettoken_loop n state c s = .done (get_token_type state) (putback_char c s) := by
  obtain ⟨f, rfl⟩ := Nat.exists_eq_add_of_le' hfuel
  refine ⟨?_, fun n state c s h => gettoken_loop_final n state c s h⟩
  rw [gettoken_prefixed f p (body ++ rest) s0 (by simpa using hp)]
  rfl

/-- Witness of the amended C3 at `"0b101"`, fuel 3 and the start-up cursor. -/
theorem C3_scan_stops_behind_prefix_letter_witness :
    3 ≤ 3 ∧ 'b' ∈ ['b', 'o', 'd', 'h'] ∧
    (gettoken 3 (set_input ('0' :: 'b' :: (['1', '0', '1'] ++ [])) Cursor.initial)).pos
      = some 2 :=
  ⟨by decide, by decide,
    (C3_scan_stops_behind_prefix_letter Cursor.initial 3 (by decide) 'b' ['1', '0', '1'] []
      (by decide)).1⟩

/-- C4, refuted as stated: after `set_input("123")` the character `'1'` at
index 0 takes the loop into the final state 8, and `gettoken` returns with the
read offset at 0, which is not greater than 0 (not at least 1). -/
theorem C4_final_entry_counterexample :
    (gettoken 3 (set_input "123".toList Cursor.initial)).pos = some 0 ∧
    ¬ ∃ q : Int, (gettoken 3 (set_input "123".toList Cursor.initial)).pos = some q ∧ 1 ≤ q := by
  have h : (gettoken 3 (set_input "123".toList Cursor.initial)).pos = some 0 := by decide
  refine ⟨h, ?_⟩
  rintro ⟨q, hq, h1⟩
  rw [h] at hq
  cases hq
  omega

/-- C4, amended: whenever the loop of `gettoken`, in a non-final state, reads
a character (not the terminator) at a valid index and the transition table
sends it to a final state `next` (6..9), that character is pushed back: the
call returns the token kind of `next` with the cursor exactly as it was before
the read, so the read offset on return equals the index of that character. -/
theorem C4_final_entry_pushed_back (fuel : Nat) (state : Int) (c0 : Char) (s : Cursor)
    (next : Int) (hnf : is_final_state state = false)
    (hpos : 0 ≤ s.buffer_pos) (hlt : s.buffer_pos < s.buffer_len)
    (hc : s.input_buffer.getD s.buffer_pos.toNat NUL ≠ NUL)
    (hnext : next_state_at state
      (classify_char (s.input_buffer.getD s.buffer_pos.toNat NUL)) = some next)
    (hfin : is_final_state next = true) :
    gettoken_loop (fuel + 1) state c0 s = .done (get_token_type next) s := by
  have hne : next ≠ ERROR := by
    intro e
    rw [e] at hfin
    exact absurd hfin (by decide)
  have hn : nextchar s = (s.input_buffer.getD s.buffer_pos.toNat NUL,
      s.seek (s.buffer_pos + 1)) := by
    simp only [nextchar, if_pos hlt]
    rfl
  have hnp : ¬ (state = 1 ∧
      classify_char (s.input_buffer.getD s.buffer_pos.toNat NUL) = COL_PREFIX) := by
    rintro ⟨h1, h4⟩
    rw [h1, h4] at hnext
    have e : next = 2 := by
      have : next_state_at 1 COL_PREFIX = some 2 := by decide
      rw [this] at hnext
      exact (Option.some.inj hnext).symm
    rw [e] at hfin
    exact absurd hfin (by decide)
  rw [gettoken_loop_succ fuel state c0 s hnf, hn]
  simp only [if_neg hc, if_neg hnp, hnext, if_neg hne]
  rw [gettoken_loop_final fuel next _ _ hfin, putback_seek_succ s s.buffer_pos _ hpos]
  rfl

/-- Witness of the amended C4: the first read of `"123"` in the start state. -/
theorem C4_final_entry_pushed_back_witness :
    is_final_state 0 = false ∧ next_state_at 0 (classify_char '1') = some 8 ∧
    is_final_state 8 = true ∧
    gettoken_loop (0 + 1) 0 NUL (set_input ['1', '2', '3'] Cursor.initial) =
      .done (get_token_type 8) (set_input ['1', '2', '3'] Cursor.initial) :=
  ⟨by decide, by decide, by decide,
    C4_final_entry_pushed_back 0 0 NUL (set_input ['1', '2', '3'] Cursor.initial) 8
      (by decide) (by decide) (by decide) (by decide) (by decide) (by decide)⟩

/-- C5, refuted as stated: after `set_input("9x")`, `gettoken` returns `DEC`
but leaves two characters unconsumed, not one, and the next `nextchar`
returns `'9'`, not `'x'`. -/
theorem C5_nine_x_counterexample :
    (gettoken 3 (set_input "9x".toList Cursor.initial)).token = some DEC ∧
    (gettoken 3 (set_input "9x".toList Cursor.initial)).cursor.map
      (fun s => s.buffer_len - s.buffer_pos) = some 2 ∧
    (gettoken 3 (set_input "9x".toList Cursor.initial)).cursor.map
      (fun s => s.buffer_len - s.buffer_pos) ≠ some 1 ∧
    (gettoken 3 (set_input "9x".toList Cursor.initial)).cursor.map
      (fun s => (nextchar s).1) = some '9' ∧
    (gettoken 3 (set_input "9x".toList Cursor.initial)).cursor.map
      (fun s => (nextchar s).1) ≠ some 'x' := by
  decide

/-- C5, amended: after `set_input("9x")`, `gettoken` returns `DEC` and leaves
both characters unconsumed: `buffer_len - buffer_pos = 2` and the next
`nextchar` returns `'9'` (the digit that decided the token is pushed back). -/
theorem C5_nine_x_pushed_back (s0 : Cursor) (fuel : Nat) (hfuel : 3 ≤ fuel) :
    ∃ s : Cursor, gettoken fuel (set_input ['9', 'x'] s0) = .done DEC s ∧
      s.buffer_len - s.buffer_pos = 2 ∧ (nextchar s).1 = '9' := by
  obtain ⟨f, rfl⟩ := Nat.exists_eq_add_of_le' hfuel
  refine ⟨set_input ['9', 'x'] s0,
    gettoken_nonzero_digit (f + 2) '9' ['x'] s0 (by decide), ?_, ?_⟩
  · have hl := set_input_len_stop ['9', 'x'] [] s0 (by decide) (by decide) (Or.inl rfl)
    rw [List.append_nil] at hl
    rw [hl, set_input_pos]
    rfl
  · have hp := set_input_copied ['9', 'x'] [] s0 (by decide) (by decide)
    rw [List.append_nil] at hp
    have h0 := hp.2 0 (by decide)
    have hlt : (0 : Int) < (set_input ['9', 'x'] s0).buffer_len :=
      lt_of_lt_of_le (by decide) hp.1
    have := nextchar_seek_read (set_input ['9', 'x'] s0) 0 0 '9' rfl hlt h0
    rw [show (set_input ['9', 'x'] s0).seek 0 = set_input ['9', 'x'] s0 from rfl] at this
    rw [this]

/-- Witness of the amended C5 at fuel 3 and the start-up cursor. -/
theorem C5_nine_x_pushed_back_witness :
    3 ≤ 3 ∧ ∃ s : Cursor, gettoken 3 (set_input ['9', 'x'] Cursor.initial) = .done DEC s ∧
      s.buffer_len - s.buffer_pos = 2 ∧ (nextchar s).1 = '9' :=
  ⟨by decide, C5_nine_x_pushed_back Cursor.initial 3 (by decide)⟩

/-- C6, refuted as stated: after `set_input("0x1")`, `gettoken` returns
`DEC`, not `ERROR`. -/
theorem C6_unsupported_prefix_counterexample :
    (gettoken 3 (set_input "0x1".toList Cursor.initial)).token = some DEC ∧
    (gettoken 3 (set_input "0x1".toList Cursor.initial)).token ≠ some ERROR := by
  decide

/-- C6, amended: for every input that starts with `'0'` followed by a
character `c` that is neither a digit nor one of `b`, `o`, `d`, `h`, `gettoken`
called right after `set_input` returns `ERROR` exactly when `c` is one of the
hexadecimal letters `A`..`F`, `a`, `c`, `e`, `f`; for every other such `c`
(as the `x` of `"0x1"`) it returns `DEC`. -/
theorem C6_zero_then_nondigit (s0 : Cursor) (fuel : Nat) (hfuel : 3 ≤ fuel)
    (c : Char) (rest : List Char)
    (hd : c ∉ ['0', '1', '2', '3', '4', '5', '6', '7', '8', '9'])
    (hp : c ∉ ['b', 'o', 'd', 'h']) :
    (gettoken fuel (set_input ('0' :: c :: rest) s0)).token =
      some (if c ∈ ['A', 'B', 'C', 'D', 'E', 'F', 'a', 'c', 'e', 'f'] then ERROR else DEC) := by
  obtain ⟨f, rfl⟩ := Nat.exists_eq_add_of_le' hfuel
  by_cases hc : c = NUL
  · subst hc
    rw [gettoken_zero_end (f + 1) (NUL :: rest) s0 (Or.inr rfl), if_neg (by decide)]
    rfl
  · have hs := classify_char_sets c
    have h4 : ¬ classify_char c = 4 := fun h => hp (hs.2.1.mp h)
    rw [gettoken_zero_read (f + 1) c rest s0 hc, if_neg h4]
    by_cases hx : c ∈ ['A', 'B', 'C', 'D', 'E', 'F', 'a', 'c', 'e', 'f']
    · rw [if_pos (hs.2.2.mpr hx), if_pos hx]
      rfl
    · rw [if_neg (fun h => hx (hs.2.2.mp h)), if_neg hx]
      rfl

/-- Witness of the amended C6 at `"0x1"`, fuel 3 and the start-up cursor. -/
theorem C6_zero_then_nondigit_witness :
    3 ≤ 3 ∧ 'x' ∉ ['0', '1', '2', '3', '4', '5', '6', '7', '8', '9'] ∧
    'x' ∉ ['b', 'o', 'd', 'h'] ∧
    (gettoken 3 (set_input ('0' :: 'x' :: ['1']) Cursor.initial)).token =
      some (if 'x' ∈ ['A', 'B', 'C', 'D', 'E', 'F', 'a', 'c', 'e', 'f'] then ERROR else DEC) :=
  ⟨by decide, by decide, by decide,
    C6_zero_then_nondigit Cursor.initial 3 (by decide) 'x' ['1'] (by decide) (by decide)⟩

/-- C7, refuted as stated: after `set_input("0b8")`, whose body holds the
character `'8'` that is no binary digit, `gettoken` returns `BIN`, not
`ERROR`. -/
theorem C7_invalid_body_counterexample :
    (gettoken 3 (set_input "0b8".toList Cursor.initial)).token = some BIN ∧
    (gettoken 3 (set_input "0b8".toList Cursor.initial)).token ≠ some ERROR := by
  decide

/-- C7, amended: for every input made of a radix prefix `0b`, `0o`, `0d`, `0h`
followed by a body that contains a character not valid for that radix,
`gettoken` called right after `set_input` returns the token kind of the
prefix (`BIN`, `OCT`, `DEC`, `HEX`), not `ERROR`. -/
theorem C7_invalid_body_keeps_radix (s0 : Cursor) (fuel : Nat) (hfuel : 3 ≤ fuel)
    (body : List Char) :
    ((∃ c ∈ body, c ∉ ['0', '1']) →
      (gettoken fuel (set_input ('0' :: 'b' :: body) s0)).token = some BIN) ∧
    ((∃ c ∈ body, c ∉ ['0', '1', '2', '3', '4', '5', '6', '7']) →
      (gettoken fuel (set_input ('0' :: 'o' :: body) s0)).token = some OCT) ∧
    ((∃ c ∈ body, c ∉ ['0', '1', '2', '3', '4', '5', '6', '7', '8', '9']) →
      (gettoken fuel (set_input ('0' :: 'd' :: body) s0)).token = some DEC) ∧
    ((∃ c ∈ body, c ∉ ['0', '1', '2', '3', '4', '5', '6', '7', '8', '9',
        'A', 'B', 'C', 'D', 'E', 'F', 'a', 'b', 'c', 'd', 'e', 'f']) →
      (gettoken fuel (set_input ('0' :: 'h' :: body) s0)).token = some HEX) := by
  obtain ⟨f, rfl⟩ := Nat.exists_eq_add_of_le' hfuel
  refine ⟨fun _ => ?_, fun _ => ?_, fun _ => ?_, fun _ => ?_⟩
  · rw [gettoken_prefixed f 'b' body s0 (by decide)]; rfl
  · rw [gettoken_prefixed f 'o' body s0 (by decide)]; rfl
  · rw [gettoken_prefixed f 'd' body s0 (by decide)]; rfl
  · rw [gettoken_prefixed f 'h' body s0 (by decide)]; rfl

/-- Witness of the amended C7 at `"0b18"`, fuel 3 and the start-up cursor. -/
theorem C7_invalid_body_keeps_radix_witness :
    3 ≤ 3 ∧ (∃ c ∈ ['1', '8'], c ∉ ['0', '1']) ∧
    (gettoken 3 (set_input ['0', 'b', '1', '8'] Cursor.initial)).token = some BIN :=
  ⟨by decide, by decide,
    (C7_invalid_body_keeps_radix Cursor.initial 3 (by decide) ['1', '8']).1 (by decide)⟩

/-- C8: for every non-empty input whose first character is not one of
`'0'..'9'`, `gettoken` called right after `set_input` returns `ERROR` and the
offending character is not pushed back: the read offset on return is 1. -/
theorem C8_leading_nondigit_error (s0 : Cursor) (fuel : Nat) (hfuel : 3 ≤ fuel)
    (c : Char) (rest : List Char) (hc : c ≠ NUL)
    (hd : c ∉ ['0', '1', '2', '3', '4', '5', '6', '7', '8', '9']) :
    (gettoken fuel (set_input (c :: rest) s0)).token = some ERROR ∧
    (gettoken fuel (set_input (c :: rest) s0)).pos = some 1 := by
  obtain ⟨f, rfl⟩ := Nat.exists_eq_add_of_le' hfuel
  have hs := classify_char_sets c
  have h3 : ¬ classify_char c ≤ 3 := fun h => hd (hs.1.mp h)
  have hcl : classify_char c = 4 ∨ classify_char c = 5 ∨ classify_char c = 6 := by
    rcases classify_char_cases c with h | h | h | h | h | h | h <;> omega
  rw [gettoken_nondigit (f + 2) c rest s0 hc hcl]
  exact ⟨rfl, rfl⟩

/-- Witness of C8 at `"x1"`, fuel 3 and the start-up cursor. -/
theorem C8_leading_nondigit_error_witness :
    3 ≤ 3 ∧ 'x' ≠ NUL ∧ 'x' ∉ ['0', '1', '2', '3', '4', '5', '6', '7', '8', '9'] ∧
    (gettoken 3 (set_input ('x' :: ['1']) Cursor.initial)).token = some ERROR ∧
    (gettoken 3 (set_input ('x' :: ['1']) Cursor.initial)).pos = some 1 :=
  ⟨by decide, by decide, by decide,
    C8_leading_nondigit_error Cursor.initial 3 (by decide) 'x' ['1'] (by decide) (by decide)⟩

/-- C9: right after `set_input`, the inputs `"0"`, `"0b"`, `"0o"`, `"0d"`,
`"0h"` make `gettoken` return `DEC`, `BIN`, `OCT`, `DEC`, `HEX` with the read
offset on return equal to the input length (1, 2, 2, 2, 2). More generally,
when the loop reads at the end of the input (`buffer_len <= buffer_pos`) in
state 1, 2, 3, 4 or 5 it returns `DEC`, `HEX`, `BIN`, `OCT`, `DEC` and leaves
the cursor as it was. -/
theorem C9_end_of_input_policy (s0 : Cursor) (fuel : Nat) (hfuel : 3 ≤ fuel) :
    ((gettoken fuel (set_input ['0'] s0)).token = some DEC ∧
      (gettoken fuel (set_input ['0'] s0)).pos = some 1) ∧
    ((gettoken fuel (set_input ['0', 'b'] s0)).token = some BIN ∧
      (gettoken fuel (set_input ['0', 'b'] s0)).pos = some 2) ∧
    ((gettoken fuel (set_input ['0', 'o'] s0)).token = some OCT ∧
      (gettoken fuel (set_input ['0', 'o'] s0)).pos = some 2) ∧
    ((gettoken fuel (set_input ['0', 'd'] s0)).token = some DEC ∧
      (gettoken fuel (set_input ['0', 'd'] s0)).pos = some 2) ∧
    ((gettoken fuel (set_input ['0', 'h'] s0)).token = some HEX ∧
      (gettoken fuel (set_input ['0', 'h'] s0)).pos = some 2) ∧
    ∀ (n : Nat) (c : Char) (s : Cursor), s.buffer_len ≤ s.buffer_pos →
      gettoken_loop (n + 1) 1 c s = .done DEC s ∧
      gettoken_loop (n + 1) 2 c s = .done HEX s ∧
      gettoken_loop (n + 1) 3 c s = .done BIN s ∧
      gettoken_loop (n + 1) 4 c s = .done OCT s ∧
      gettoken_loop (n + 1) 5 c s = .done DEC s := by
  obtain ⟨f, rfl⟩ := Nat.exists_eq_add_of_le' hfuel
  refine ⟨?_, ?_, ?_, ?_, ?_, ?_⟩
  · rw [gettoken_zero_end (f + 1) [] s0 (Or.inl rfl)]
    exact ⟨rfl, rfl⟩
  · rw [gettoken_prefixed f 'b' [] s0 (by decide)]
    exact ⟨rfl, rfl⟩
  · rw [gettoken_prefixed f 'o' [] s0 (by decide)]
    exact ⟨rfl, rfl⟩
  · rw [gettoken_prefixed f 'd' [] s0 (by decide)]
    exact ⟨rfl, rfl⟩
  · rw [gettoken_prefixed f 'h' [] s0 (by decide)]
    exact ⟨rfl, rfl⟩
  · intro n c s h
    have hn : nextchar s = (NUL, s) := by
      have := nextchar_seek_eof s s.buffer_pos h
      rwa [seek_self] at this
    exact ⟨gettoken_loop_eof n 1 c s s (by decide) hn,
      gettoken_loop_eof n 2 c s s (by decide) hn,
      gettoken_loop_eof n 3 c s s (by decide) hn,
      gettoken_loop_eof n 4 c s s (by decide) hn,
      gettoken_loop_eof n 5 c s s (by decide) hn⟩

/-- Witness of C9 at fuel 3 and the start-up cursor, read at the input `"0h"`. -/
theorem C9_end_of_input_policy_witness :
    3 ≤ 3 ∧ (gettoken 3 (set_input ['0', 'h'] Cursor.initial)).token = some HEX ∧
    (gettoken 3 (set_input ['0', 'h'] Cursor.initial)).pos = some 2 :=
  ⟨by decide, (C9_end_of_input_policy Cursor.initial 3 (by decide)).2.2.2.2.1⟩

/-- C10: `classify_char` is a total function and agrees on every character (so
on each of the 256 byte values `Char.ofNat n`, `n < 256`) with the reference
classification read in priority order; its result always lies in `0..6`, and
`'b'` and `'d'` are classified `COL_PREFIX`, not `COL_HEX_LETTER`. -/
theorem C10_classify_char_reference :
    (∀ c : Char, classify_char c = classify_reference c ∧
      0 ≤ classify_char c ∧ classify_char c ≤ 6) ∧
    (∀ n : Nat, n < 256 → classify_char (Char.ofNat n) = classify_reference (Char.ofNat n)) ∧
    classify_char 'b' = COL_PREFIX ∧ classify_char 'd' = COL_PREFIX ∧
    classify_char 'b' ≠ COL_HEX_LETTER ∧ classify_char 'd' ≠ COL_HEX_LETTER := by
  refine ⟨fun c => ⟨classify_char_eq_reference c, ?_, ?_⟩,
    fun n _ => classify_char_eq_reference _, by decide, by decide, by decide, by decide⟩
  · rcases classify_char_cases c with h | h | h | h | h | h | h <;> omega
  · rcases classify_char_cases c with h | h | h | h | h | h | h <;> omega

/-- C11, refuted as stated: after `set_input("a")` and one `nextchar` the
cursor is at the end of the input (`buffer_pos = buffer_len = 1`); there
`nextchar` returns `'\0'` without moving, `putback_char` still rewinds to 0,
not back to 1, and the following `nextchar` returns `'a'`, not `'\0'`. -/
theorem C11_round_trip_counterexample :
    0 ≤ (nextchar (set_input "a".toList Cursor.initial)).2.buffer_pos ∧
    (nextchar (set_input "a".toList Cursor.initial)).2.buffer_pos ≤
      (nextchar (set_input "a".toList Cursor.initial)).2.buffer_len ∧
    (nextchar (set_input "a".toList Cursor.initial)).2.buffer_pos = 1 ∧
    (nextchar (nextchar (set_input "a".toList Cursor.initial)).2).1 = NUL ∧
    (putback_char (nextchar (nextchar (set_input "a".toList Cursor.initial)).2).1
      (nextchar (nextchar (set_input "a".toList Cursor.initial)).2).2).buffer_pos = 0 ∧
    (putback_char (nextchar (nextchar (set_input "a".toList Cursor.initial)).2).1
      (nextchar (nextchar (set_input "a".toList Cursor.initial)).2).2).buffer_pos ≠
      (nextchar (set_input "a".toList Cursor.initial)).2.buffer_pos ∧
    (nextchar (putback_char (nextchar (nextchar (set_input "a".toList Cursor.initial)).2).1
      (nextchar (nextchar (set_input "a".toList Cursor.initial)).2).2)).1 = 'a' ∧
    (nextchar (putback_char (nextchar (nextchar (set_input "a".toList Cursor.initial)).2).1
      (nextchar (nextchar (set_input "a".toList Cursor.initial)).2).2)).1 ≠
      (nextchar (nextchar (set_input "a".toList Cursor.initial)).2).1 := by
  decide

/-- C11, amended: for every cursor with `0 <= buffer_pos <= buffer_len` on
which `nextchar` reads a character (`buffer_pos < buffer_len`), or that
stands at offset 0, `nextchar` followed by `putback_char` of the character
returned restores the cursor: the read offset equals the one before the read
and a following `nextchar` returns the identical character. -/
theorem C11_round_trip_when_read (s : Cursor) (h0 : 0 ≤ s.buffer_pos)
    (hle : s.buffer_pos ≤ s.buffer_len) (hrd : s.buffer_pos < s.buffer_len ∨ s.buffer_pos = 0) :
    putback_char (nextchar s).1 (nextchar s).2 = s ∧
    (putback_char (nextchar s).1 (nextchar s).2).buffer_pos = s.buffer_pos ∧
    (nextchar (putback_char (nextchar s).1 (nextchar s).2)).1 = (nextchar s).1 := by
  have key : putback_char (nextchar s).1 (nextchar s).2 = s := by
    by_cases hlt : s.buffer_pos < s.buffer_len
    · have h1 : s.buffer_pos + 1 > 0 := by omega
      simp only [nextchar, if_pos hlt, putback_char, if_pos h1, Int.add_sub_cancel]
    · have hz : s.buffer_pos = 0 := by
        rcases hrd with h | h
        · exact absurd h hlt
        · exact h
      have h1 : ¬ s.buffer_pos > 0 := by omega
      simp only [nextchar, if_neg hlt, putback_char, if_neg h1]
  rw [key]
  exact ⟨rfl, rfl, rfl⟩

/-- Witness of the amended C11 on the cursor left by `set_input("a")`. -/
theorem C11_round_trip_when_read_witness :
    (0 : Int) ≤ 0 ∧
    putback_char (nextchar (set_input ['a'] Cursor.initial)).1
      (nextchar (set_input ['a'] Cursor.initial)).2 = set_input ['a'] Cursor.initial :=
  ⟨by decide, (C11_round_trip_when_read (set_input ['a'] Cursor.initial) (by decide)
    (by decide) (by decide)).1⟩

/-- C12: for every text `t` without terminator, `set_input(t)` sets
`buffer_len` to `min(length t, 99)`, resets `buffer_pos` to 0 whatever the
cursor was before, stores exactly the first `min(length t, 99)` characters of
`t` followed by the terminator, and reading with `nextchar` thereafter yields
those characters in order and then `'\0'` at every further call. -/
theorem C12_set_input_stores (t : List Char) (s0 : Cursor) (hnul : ∀ c ∈ t, c ≠ NUL) :
    (set_input t s0).buffer_len = (min t.length 99 : Nat) ∧
    (set_input t s0).buffer_pos = 0 ∧
    (set_input t s0).input_buffer.take (min t.length 99) = t.take 99 ∧
    (set_input t s0).input_buffer[min t.length 99]? = some NUL ∧
    ∀ k : Nat, read_chars (min t.length 99 + k) (set_input t s0) =
      t.take 99 ++ List.replicate k NUL := by
  obtain ⟨hr, hl, hz⟩ := remaining_set_input_text t s0 hnul
  have htake : (set_input t s0).input_buffer.take (min t.length 99) = t.take 99 := by
    rw [← hr]
    simp only [remaining, hl, set_input_pos, Int.toNat_ofNat, Int.toNat_zero, List.drop_zero]
  refine ⟨hl, rfl, htake, hz, fun k => ?_⟩
  have hlen : (t.take 99).length = min t.length 99 := by
    rw [List.length_take, Nat.min_comm]
  have := read_chars_remaining k (t.take 99) (set_input t s0) hr (by rw [set_input_pos])
    (by rw [hl]; exact_mod_cast (by omega : min t.length 99 ≤ 100))
  rwa [hlen] at this

/-- Witness of C12 at the text `"ab"` and the start-up cursor. -/
theorem C12_set_input_stores_witness :
    (∀ c ∈ ['a', 'b'], c ≠ NUL) ∧
    (set_input ['a', 'b'] Cursor.initial).buffer_len = (min ['a', 'b'].length 99 : Nat) ∧
    (set_input ['a', 'b'] Cursor.initial).buffer_pos = 0 :=
  ⟨by decide, (C12_set_input_stores ['a', 'b'] Cursor.initial (by decide)).1,
    (C12_set_input_stores ['a', 'b'] Cursor.initial (by decide)).2.1⟩

/-- C13: the cursor invariant `0 <= buffer_pos <= buffer_len <= 99` holds
after every `set_input` and is preserved by every `nextchar`, every
`putback_char` and every `gettoken` call (which returns, given three loop
passes); a rewind never moves a position that is at least 0 below 0. -/
theorem C13_cursor_invariant :
    (∀ (t : List Char) (s0 : Cursor),
      0 ≤ (set_input t s0).buffer_pos ∧
      (set_input t s0).buffer_pos ≤ (set_input t s0).buffer_len ∧
      (set_input t s0).buffer_len ≤ 99) ∧
    (∀ s : Cursor, 0 ≤ s.buffer_pos → s.buffer_pos ≤ s.buffer_len → s.buffer_len ≤ 99 →
      0 ≤ (nextchar s).2.buffer_pos ∧
      (nextchar s).2.buffer_pos ≤ (nextchar s).2.buffer_len ∧
      (nextchar s).2.buffer_len ≤ 99) ∧
    (∀ (c : Char) (s : Cursor),
      0 ≤ s.buffer_pos → s.buffer_pos ≤ s.buffer_len → s.buffer_len ≤ 99 →
      0 ≤ (putback_char c s).buffer_pos ∧
      (putback_char c s).buffer_pos ≤ (putback_char c s).buffer_len ∧
      (putback_char c s).buffer_len ≤ 99) ∧
    (∀ (fuel : Nat) (s : Cursor), 3 ≤ fuel →
      0 ≤ s.buffer_pos → s.buffer_pos ≤ s.buffer_len → s.buffer_len ≤ 99 →
      ∃ tok s', gettoken fuel s = .done tok s' ∧
        0 ≤ s'.buffer_pos ∧ s'.buffer_pos ≤ s'.buffer_len ∧ s'.buffer_len ≤ 99) ∧
    (∀ (c : Char) (s : Cursor), 0 ≤ s.buffer_pos → 0 ≤ (putback_char c s).buffer_pos) := by
  refine ⟨?_, ?_, ?_, ?_, ?_⟩
  · intro t s0
    have h := set_input_loop_snd_le t 0 s0.input_buffer (by omega)
    refine ⟨by rw [set_input_pos], ?_, ?_⟩
    · rw [set_input_pos]
      simp only [set_input]
      omega
    · simp only [set_input]
      omega
  · intro s h0 hle h99
    unfold nextchar
    split_ifs with h
    · exact ⟨by show 0 ≤ s.buffer_pos + 1; omega, by show s.buffer_pos + 1 ≤ s.buffer_len; omega,
        h99⟩
    · exact ⟨h0, hle, h99⟩
  · intro c s h0 hle h99
    unfold putback_char
    split_ifs with h
    · exact ⟨by show 0 ≤ s.buffer_pos - 1; omega, by show s.buffer_pos - 1 ≤ s.buffer_len; omega,
        h99⟩
    · exact ⟨h0, hle, h99⟩
  · intro fuel s hfuel h0 hle h99
    obtain ⟨f, rfl⟩ := Nat.exists_eq_add_of_le' hfuel
    have hadv := scan_text_adv (remaining s)
    have hrl := remaining_length s h0 hle (by omega)
    refine ⟨_, _, gettoken_eq_scan_text s h0 (by omega) f, ?_, ?_, ?_⟩
    · rw [seek_pos]; omega
    · rw [seek_pos, seek_len]; omega
    · exact h99
  · intro c s h0
    unfold putback_char
    split_ifs with h
    · show 0 ≤ s.buffer_pos - 1
      omega
    · exact h0

/-- Witness of C13: `gettoken` on the cursor left by `set_input("0b1")`. -/
theorem C13_cursor_invariant_witness :
    ∃ tok s', gettoken 3 (set_input ['0', 'b', '1'] Cursor.initial) = .done tok s' ∧
      0 ≤ s'.buffer_pos ∧ s'.buffer_pos ≤ s'.buffer_len ∧ s'.buffer_len ≤ 99 :=
  C13_cursor_invariant.2.2.2.1 3 (set_input ['0', 'b', '1'] Cursor.initial) (by decide)
    (by decide) (by decide) (by decide)

/-- C14: on every cursor the program can be in (`0 <= buffer_pos <= buffer_len
<= 99`, no stored character the terminator, as `set_input` leaves the array
and every other function keeps it), `gettoken` returns the same token kind and
advances the read offset by the same amount as a `gettoken` call made right
after `set_input` on the stored characters from `buffer_pos` on; it leaves the
array and `buffer_len` unchanged. -/
theorem C14_gettoken_on_remaining (s s0 : Cursor) (fuel : Nat) (hfuel : 3 ≤ fuel)
    (h0 : 0 ≤ s.buffer_pos) (hle : s.buffer_pos ≤ s.buffer_len) (h99 : s.buffer_len ≤ 99)
    (hnul : ∀ c ∈ s.input_buffer.take s.buffer_len.toNat, c ≠ NUL) :
    ∃ tok s' t',
      gettoken fuel s = .done tok s' ∧
      gettoken fuel (set_input
        ((s.input_buffer.take s.buffer_len.toNat).drop s.buffer_pos.toNat) s0) = .done tok t' ∧
      s'.buffer_pos - s.buffer_pos = t'.buffer_pos ∧
      s'.input_buffer = s.input_buffer ∧ s'.buffer_len = s.buffer_len := by
  obtain ⟨f, rfl⟩ := Nat.exists_eq_add_of_le' hfuel
  have hrn := remaining_nul_free s hnul
  have hlen : ((remaining s).length : Int) ≤ 99 := by
    rw [remaining_length s h0 hle (by omega)]; omega
  have hrs : remaining (set_input (remaining s) s0) = remaining s := by
    have := remaining_set_input (remaining s) [] s0 hrn (by exact_mod_cast hlen) (Or.inl rfl)
    rwa [List.append_nil] at this
  have hsl : (set_input (remaining s) s0).buffer_len ≤ 100 := by
    have := (set_input_content (remaining s) s0).1
    omega
  have h2 := gettoken_eq_scan_text (set_input (remaining s) s0) (by rw [set_input_pos]) hsl f
  rw [hrs, set_input_pos] at h2
  refine ⟨_, _, _, gettoken_eq_scan_text s h0 (by omega) f, h2, ?_, rfl, rfl⟩
  rw [seek_pos, seek_pos]
  omega

/-- Witness of C14: the cursor left by `set_input("x0b1")` and one `nextchar`. -/
theorem C14_gettoken_on_remaining_witness :
    ∃ tok s' t',
      gettoken 3 (nextchar (set_input ['x', '0', 'b', '1'] Cursor.initial)).2 = .done tok s' ∧
      gettoken 3 (set_input
        (((nextchar (set_input ['x', '0', 'b', '1'] Cursor.initial)).2.input_buffer.take
          (nextchar (set_input ['x', '0', 'b', '1'] Cursor.initial)).2.buffer_len.toNat).drop
          (nextchar (set_input ['x', '0', 'b', '1'] Cursor.initial)).2.buffer_pos.toNat)
        Cursor.initial) = .done tok t' ∧
      s'.buffer_pos - (nextchar (set_input ['x', '0', 'b', '1'] Cursor.initial)).2.buffer_pos
        = t'.buffer_pos ∧
      s'.input_buffer = (nextchar (set_input ['x', '0', 'b', '1'] Cursor.initial)).2.input_buffer ∧
      s'.buffer_len = (nextchar (set_input ['x', '0', 'b', '1'] Cursor.initial)).2.buffer_len :=
  C14_gettoken_on_remaining (nextchar (set_input ['x', '0', 'b', '1'] Cursor.initial)).2
    Cursor.initial 3 (by decide) (by decide) (by decide) (by decide) (by decide)

/-- C15: the transition table agrees with the mapping of spec section 4.3 at
every pair of a state in `0..9` and a class in `0..6`; at the one pair the
section leaves to the prefix disambiguator, (AfterLeadingZero, PrefixLetter),
the table holds 2. Each final row 6..9 holds its own state or `ERROR`. -/
theorem C15_transition_table :
    (∀ (state : Fin 10) (cls : Fin 7),
      next_state_at state.val cls.val =
        if state.val = 1 ∧ cls.val = 4 then some 2
        else reference_transition state.val cls.val) ∧
    (∀ (cls : Fin 7),
      (next_state_at 6 cls.val = some 6 ∨ next_state_at 6 cls.val = some ERROR) ∧
      (next_state_at 7 cls.val = some 7 ∨ next_state_at 7 cls.val = some ERROR) ∧
      (next_state_at 8 cls.val = some 8 ∨ next_state_at 8 cls.val = some ERROR) ∧
      (next_state_at 9 cls.val = some 9 ∨ next_state_at 9 cls.val = some ERROR)) := by
  decide

/-- C16: for every character `c` of class `COL_PREFIX`,
`get_prefix_state(1, c)` is one of the states 2..5 (`b` 3, `o` 4, `d` 5,
`h` 2) and never `ERROR`, so a loop pass that reads `c` in state 1 goes on in
that state instead of returning `ERROR`. -/
theorem C16_disambiguator_never_fails (c : Char) (h : classify_char c = COL_PREFIX) :
    (get_prefix_state 1 c = 2 ∨ get_prefix_state 1 c = 3 ∨ get_prefix_state 1 c = 4 ∨
      get_prefix_state 1 c = 5) ∧
    get_prefix_state 1 c ≠ ERROR ∧
    (get_prefix_state 1 'b' = 3 ∧ get_prefix_state 1 'o' = 4 ∧ get_prefix_state 1 'd' = 5 ∧
      get_prefix_state 1 'h' = 2) ∧
    ∀ (fuel : Nat) (c0 : Char) (s : Cursor), (nextchar s).1 = c →
      gettoken_loop (fuel + 1) 1 c0 s =
        gettoken_loop fuel (get_prefix_state 1 c) c (nextchar s).2 := by
  have hm : c ∈ ['b', 'o', 'd', 'h'] := (classify_char_sets c).2.1.mp h
  simp only [List.mem_cons, List.mem_singleton, List.mem_nil_iff, or_false] at hm
  have hst : get_prefix_state 1 c = 2 ∨ get_prefix_state 1 c = 3 ∨ get_prefix_state 1 c = 4 ∨
      get_prefix_state 1 c = 5 := by
    rcases hm with e | e | e | e <;> subst e <;> decide
  have hne : get_prefix_state 1 c ≠ ERROR := by
    rcases hm with e | e | e | e <;> subst e <;> decide
  have hnul : c ≠ NUL := ne_nul_of_classify c (by rw [h]; decide)
  refine ⟨hst, hne, by decide, ?_⟩
  intro fuel c0 s hc
  have hn : nextchar s = (c, (nextchar s).2) := by rw [← hc]
  have h4 : classify_char c = 4 := h
  rw [gettoken_loop_zero fuel c0 c s _ hn hnul, if_pos h4, if_neg hne]

/-- Witness of C16 at the character `h`. -/
theorem C16_disambiguator_never_fails_witness :
    classify_char 'h' = COL_PREFIX ∧ get_prefix_state 1 'h' ≠ ERROR :=
  ⟨by decide, (C16_disambiguator_never_fails 'h' (by decide)).2.1⟩

/-- C17: for every input `t` without terminator, `gettoken` called right
after `set_input(t)` returns `ERROR` if and only if `t` is empty, or its
first character is not a decimal digit, or `t` starts with `'0'` immediately
followed by one of the hexadecimal letters `A`..`F`, `a`, `c`, `e`, `f`; in
every other case it returns one of `BIN`, `OCT`, `DEC`, `HEX`. -/
theorem C17_exact_error_condition (t : List Char) (s0 : Cursor) (fuel : Nat)
    (hfuel : 3 ≤ fuel) (hnul : ∀ c ∈ t, c ≠ NUL) :
    ((gettoken fuel (set_input t s0)).token = some ERROR ↔
      (t = [] ∨ (∃ a r, t = a :: r ∧ a ∉ ['0', '1', '2', '3', '4', '5', '6', '7', '8', '9']) ∨
        (∃ b r, t = '0' :: b :: r ∧ b ∈ ['A', 'B', 'C', 'D', 'E', 'F', 'a', 'c', 'e', 'f']))) ∧
    (¬ (t = [] ∨
        (∃ a r, t = a :: r ∧ a ∉ ['0', '1', '2', '3', '4', '5', '6', '7', '8', '9']) ∨
        (∃ b r, t = '0' :: b :: r ∧ b ∈ ['A', 'B', 'C', 'D', 'E', 'F', 'a', 'c', 'e', 'f'])) →
      (gettoken fuel (set_input t s0)).token = some BIN ∨
      (gettoken fuel (set_input t s0)).token = some OCT ∨
      (gettoken fuel (set_input t s0)).token = some DEC ∨
      (gettoken fuel (set_input t s0)).token = some HEX) := by
  obtain ⟨f, rfl⟩ := Nat.exists_eq_add_of_le' hfuel
  obtain ⟨hiff, hkinds⟩ := scan_text_kind t hnul
  rw [gettoken_set_input_text t s0 f hnul]
  simp only [Run.token, Option.some.injEq]
  refine ⟨hiff, fun hn => ?_⟩
  rcases hkinds with h | h
  · exact absurd (hiff.mp h) hn
  · exact h

/-- Witness of C17 at the text `"0A"`, fuel 3 and the start-up cursor. -/
theorem C17_exact_error_condition_witness :
    3 ≤ 3 ∧ (∀ c ∈ ['0', 'A'], c ≠ NUL) ∧
    (gettoken 3 (set_input ['0', 'A'] Cursor.initial)).token = some ERROR :=
  ⟨by decide, by decide,
    (C17_exact_error_condition ['0', 'A'] Cursor.initial 3 (by decide) (by decide)).1.mpr
      (Or.inr (Or.inr ⟨'A', [], rfl, by decide⟩))⟩

/-- C18: the token kind depends only on the first two characters of the
input: for two inputs without terminator whose prefixes of length 2 are equal,
`gettoken` called right after `set_input` of the one and of the other returns
the same token kind, whatever the cursors were before. -/
theorem C18_kind_from_first_two (t1 t2 : List Char) (s1 s2 : Cursor) (fuel : Nat)
    (hfuel : 3 ≤ fuel) (h1 : ∀ c ∈ t1, c ≠ NUL) (h2 : ∀ c ∈ t2, c ≠ NUL)
    (h : t1.take 2 = t2.take 2) :
    (gettoken fuel (set_input t1 s1)).token = (gettoken fuel (set_input t2 s2)).token ∧
    ∃ k, (gettoken fuel (set_input t1 s1)).token = some k := by
  obtain ⟨f, rfl⟩ := Nat.exists_eq_add_of_le' hfuel
  rw [gettoken_set_input_text t1 s1 f h1, gettoken_set_input_text t2 s2 f h2]
  simp only [Run.token, Option.some.injEq]
  refine ⟨?_, _, rfl⟩
  rw [← scan_text_take_two t1, ← scan_text_take_two t2, h]

/-- Witness of C18 at `"0b101"` and `"0b8"`. -/
theorem C18_kind_from_first_two_witness :
    3 ≤ 3 ∧ ['0', 'b', '1', '0', '1'].take 2 = ['0', 'b', '8'].take 2 ∧
    (gettoken 3 (set_input ['0', 'b', '1', '0', '1'] Cursor.initial)).token =
      (gettoken 3 (set_input ['0', 'b', '8'] Cursor.initial)).token :=
  ⟨by decide, by decide,
    (C18_kind_from_first_two ['0', 'b', '1', '0', '1'] ['0', 'b', '8'] Cursor.initial
      Cursor.initial 3 (by decide) (by decide) (by decide) (by decide)).1⟩

/-- C19: `gettoken` terminates on every cursor: given three loop passes it
returns, its run makes at most three `nextchar` reads (one per loop pass) and
at most one `putback_char` call; and on every cursor the program can be in
(`0 <= buffer_pos <= buffer_len <= 99`, no stored character the terminator)
the read offset on return satisfies `pos_before <= pos_after <= pos_before + 2`,
so a call never moves the cursor backwards. -/
theorem C19_gettoken_terminates :
    (∀ (s : Cursor) (fuel : Nat), 3 ≤ fuel →
      (gettoken_traced fuel s).1 = gettoken fuel s ∧
      (∃ tok s', gettoken fuel s = .done tok s') ∧
      List.count Event.read (gettoken_traced fuel s).2 ≤ 3 ∧
      List.count Event.putback (gettoken_traced fuel s).2 ≤ 1) ∧
    (∀ (s : Cursor) (fuel : Nat) (tok : Int) (s' : Cursor), 3 ≤ fuel →
      0 ≤ s.buffer_pos → s.buffer_pos ≤ s.buffer_len → s.buffer_len ≤ 99 →
      gettoken fuel s = .done tok s' →
      s.buffer_pos ≤ s'.buffer_pos ∧
      ((∀ c ∈ s.input_buffer.take s.buffer_len.toNat, c ≠ NUL) →
        s'.buffer_pos ≤ s.buffer_pos + 2)) := by
  constructor
  · intro s fuel hfuel
    obtain ⟨i1, i2, _, i4⟩ := traced_spec fuel 0 NUL s (le_refl 0) (by decide)
    have hp : passes_left 0 = 3 := by decide
    rw [hp] at i2
    have hfst := gettoken_traced_fst fuel s
    refine ⟨hfst, ?_, i2, i1⟩
    obtain ⟨tok, s', e⟩ := i4 (by rw [hp]; exact hfuel)
    exact ⟨tok, s', by rw [← hfst]; exact e⟩
  · intro s fuel tok s' hfuel h0 hle h99 hrun
    obtain ⟨f, rfl⟩ := Nat.exists_eq_add_of_le' hfuel
    rw [gettoken_eq_scan_text s h0 (by omega) f] at hrun
    have hs' : s' = s.seek (s.buffer_pos + (scan_text (remaining s)).2) := by
      injection hrun with _ h
      exact h.symm
    have hadv := scan_text_adv (remaining s)
    rw [hs', seek_pos]
    refine ⟨by omega, fun hnul => ?_⟩
    have := hadv.2.2.2 (remaining_nul_free s hnul)
    omega

/-- Witness of C19: the run on the cursor left by `set_input("0b1")` returns
with the read offset moved from 0 to at most 2. -/
theorem C19_gettoken_terminates_witness :
    (∃ tok s', gettoken 3 (set_input ['0', 'b', '1'] Cursor.initial) = .done tok s') ∧
    List.count Event.read (gettoken_traced 3 (set_input ['0', 'b', '1'] Cursor.initial)).2 ≤ 3 ∧
    List.count Event.putback
      (gettoken_traced 3 (set_input ['0', 'b', '1'] Cursor.initial)).2 ≤ 1 :=
  ⟨(C19_gettoken_terminates.1 (set_input ['0', 'b', '1'] Cursor.initial) 3 (by decide)).2.1,
    (C19_gettoken_terminates.1 (set_input ['0', 'b', '1'] Cursor.initial) 3 (by decide)).2.2.1,
    (C19_gettoken_terminates.1 (set_input ['0', 'b', '1'] Cursor.initial) 3 (by decide)).2.2.2⟩

/-- C20: table indexing in `gettoken` is always in bounds: in every run, on
every cursor and with any fuel, each evaluation of
`next_state[state][char_class]` has its state in `0..5` and its class in
`0..6`, so the run never leaves the bounds of the table and `ERROR` is never
the state of a lookup; the table has 10 rows of 7 entries, every entry is
`ERROR` or a state in `1..9`, and every value of `get_prefix_state` other than
`ERROR` is a state in `1..9`. -/
theorem C20_table_lookups_in_bounds :
    (∀ (fuel : Nat) (s : Cursor) (st cl : Int),
      Event.lookup st cl ∈ (gettoken_traced fuel s).2 → 0 ≤ st ∧ st ≤ 5 ∧ 0 ≤ cl ∧ cl ≤ 6) ∧
    (∀ (fuel : Nat) (s : Cursor),
      (gettoken_traced fuel s).1 = gettoken fuel s ∧ gettoken fuel s ≠ .out_of_bounds) ∧
    (next_state.length = 10 ∧ ∀ row ∈ next_state, row.length = 7 ∧
      ∀ r ∈ row, r = ERROR ∨ (1 ≤ r ∧ r ≤ 9)) ∧
    (∀ (state : Int) (c : Char), get_prefix_state state c ≠ ERROR →
      1 ≤ get_prefix_state state c ∧ get_prefix_state state c ≤ 9) := by
  refine ⟨?_, ?_, by decide, ?_⟩
  · intro fuel s st cl hm
    exact (traced_spec fuel 0 NUL s (le_refl 0) (by decide)).2.2.1 st cl hm
  · intro fuel s
    exact ⟨gettoken_traced_fst fuel s,
      gettoken_loop_in_bounds fuel 0 NUL s (le_refl 0) (by decide)⟩
  · intro state c h
    unfold get_prefix_state at h ⊢
    split_ifs at h ⊢ <;> first | decide | exact absurd rfl h

/-- Witness of C20: the lookups of the run on `"0b1"` are in bounds. -/
theorem C20_table_lookups_in_bounds_witness :
    (gettoken_traced 3 (set_input ['0', 'b', '1'] Cursor.initial)).2 =
      [.read, .lookup 0 0, .read, .read, .lookup 3 1, .putback] ∧
    ∀ st cl, Event.lookup st cl ∈ (gettoken_traced 3 (set_input ['0', 'b', '1'] Cursor.initial)).2 →
      0 ≤ st ∧ st ≤ 5 ∧ 0 ≤ cl ∧ cl ≤ 6 :=
  ⟨by decide, C20_table_lookups_in_bounds.1 3 (set_input ['0', 'b', '1'] Cursor.initial)⟩

end Lab1
